import Mathlib

/-!
Verification of the `FundManager::try_unlock` vesting engine (`src/fund.rs`).

The Rust function reads four 32-byte storage slots of the beneficiary
account (slot 0 = `init_timestamp`, slot 1 = `pending_round`,
slot 2 = `unlocked_ticks`, slot 3 = packed `fraction_round` /
`fraction_period`, each field the low or mid 8 bytes read as a big-endian
`i64`), runs a bounded unlock loop, credits the computed funding to the
beneficiary balance and writes `pending_round` / `unlocked_ticks` back.

Shallow embedding conventions:
* `i64` values are `Int`s; every `i64` arithmetic operation of the source
  is wrapped with `wrap64` (two's-complement wrap-around, the release-mode
  semantics of Rust integer overflow).  `i64` division/remainder are
  `Int.tdiv` / `Int.tmod` (truncation towards zero, as in Rust).
* `U256` values are `Nat`s; every `U256` operation of the source carries
  its panic condition explicitly (overflow on `+`/`*`/`pow`, underflow on
  `-`, division by zero, conversion of a negative `i64`).
* A Rust panic (including division by zero and `U256::from` of a negative
  number) is modelled as the result `none`.
* Storing an `i64` as `H256::from(x as u64)` and re-reading the low
  8 bytes as a big-endian `i64` is the identity on `i64`, so persisting is
  modelled as plain record update.
-/

/-- Two's-complement wrap-around of an `i64` computation (Rust release
semantics): the representative of `x` modulo `2^64` lying in
`[-2^63, 2^63)`. -/
def wrap64 (x : Int) : Int := x.bmod (2 ^ 64)

/-- `x` is representable as an `i64`. -/
def isI64 (x : Int) : Prop := -(2 ^ 63) ≤ x ∧ x < 2 ^ 63

instance (x : Int) : Decidable (isI64 x) := by unfold isI64; infer_instance

namespace FundManager

/-- `PERIOD`: adjust unlock amount period (rounds between halvings). -/
def PERIOD : Int := 20

/-- `TICKS_IN_ROUND`: seconds in 30 days. -/
def TICKS_IN_ROUND : Int := 30 * 24 * 3600

/-- `FACTOR`: halving divisor. -/
def FACTOR : Nat := 2

/-- `TOTAL_AMOUNT`: total token amount, `0x115EEC47F6CF7E35000000` wei. -/
def TOTAL_AMOUNT : Nat := 0x115EEC47F6CF7E35000000

/-- First value outside the `U256` range; `U256` arithmetic panics when a
result reaches it. -/
def U256_LIMIT : Nat := 2 ^ 256

/-- The beneficiary's persisted state: the four storage slots (only the
`i64` fields the engine actually reads) together with the account
balance. -/
structure VestingState where
  init_timestamp : Int
  pending_round : Int
  unlocked_ticks : Int
  fraction_r : Int
  fraction_p : Int
  balance : Nat
  deriving DecidableEq, Repr

/-- All persisted `i64` fields are in `i64` range and the balance is a
`U256`; every state read back from storage satisfies this. -/
def WF (s : VestingState) : Prop :=
  isI64 s.init_timestamp ∧ isI64 s.pending_round ∧ isI64 s.unlocked_ticks ∧
    isI64 s.fraction_r ∧ isI64 s.fraction_p ∧ s.balance < U256_LIMIT

instance (s : VestingState) : Decidable (WF s) := by unfold WF; infer_instance

/-- Derived round length:
`if fraction_r > 1 { TICKS_IN_ROUND / fraction_r } else { TICKS_IN_ROUND }`. -/
def ticks_in_round_of (s : VestingState) : Int :=
  if 1 < s.fraction_r then TICKS_IN_ROUND.tdiv s.fraction_r else TICKS_IN_ROUND

/-- Derived halving period:
`if fraction_p > 1 { PERIOD / fraction_p } else { PERIOD }`. -/
def period_of (s : VestingState) : Int :=
  if 1 < s.fraction_p then PERIOD.tdiv s.fraction_p else PERIOD

/-- The memoized bucket recomputation at the head of the loop body:
`if exponent != pending_round / period { exponent = pending_round / period;
bucket = initial_bucket / FACTOR.pow(exponent); tick_bucket = bucket /
ticks_in_round }`.  `none` models the panics of `U256::from(exponent)` on a
negative exponent and of `U256::pow` on overflow.  The caller has already
established `L ≥ 1` (a zero `ticks_in_round` aborted before the loop), so
the `U256` divisors here are non-zero. -/
def recompute (ib : Nat) (L period p ex : Int) (bk tb : Nat) :
    Option (Int × Nat × Nat) :=
  let e := p.tdiv period
  if e = ex then some (ex, bk, tb)
  else if e < 0 then none
  else if FACTOR ^ e.toNat < U256_LIMIT then
    let bk' := ib / FACTOR ^ e.toNat
    some (e, bk', bk' / L.toNat)
  else none

/-- The unlock loop `while expected_round >= pending_round { ... }` of
`try_unlock`, with an explicit fuel (the caller passes enough fuel for the
loop to run to completion) and an iteration counter in the first component
of the result.  The loop state is `(pending_round, unlocked_ticks,
exponent, bucket, tick_bucket, funding)`; on normal exit it returns the
final `(pending_round, unlocked_ticks, funding)`, on a panic `none`. -/
def unlock_loop (t init L period expected : Int) (ib : Nat) :
    Nat → Int → Int → Int → Nat → Nat → Nat → Nat × Option (Int × Int × Nat)
  | 0, _, _, _, _, _, _ => (0, none)
  | fuel + 1, p, u, ex, bk, tb, fd =>
    if p ≤ expected then
      match recompute ib L period p ex bk tb with
      | none => (1, none)
      | some (ex', bk', tb') =>
        if 1 ≤ wrap64 (expected - p) then
          -- Condition 1: credit the remainder of round `p`:
          -- `funding = funding + bucket - U256::from(unlocked_ticks) * tick_bucket`.
          if u < 0 then (1, none)
          else if fd + bk' < U256_LIMIT ∧ u.toNat * tb' < U256_LIMIT ∧
              u.toNat * tb' ≤ fd + bk' then
            let r := unlock_loop t init L period expected ib fuel
              (wrap64 (p + 1)) 0 ex' bk' tb' (fd + bk' - u.toNat * tb')
            (r.1 + 1, r.2)
          else (1, none)
        else
          -- Condition 2: credit the ticks elapsed inside round `p`:
          -- `ticks = timestamp - init_timestamp - ticks_in_round * pending_round
          --          - unlocked_ticks`.
          let ticks := wrap64 (wrap64 (wrap64 (t - init) - wrap64 (L * p)) - u)
          if ticks < 0 then (1, none)
          else if ticks.toNat * tb' < U256_LIMIT ∧
              fd + ticks.toNat * tb' < U256_LIMIT then
            (1, some (p, (wrap64 (u + ticks)).tmod L, fd + ticks.toNat * tb'))
          else (1, none)
    else (0, some (p, u, fd))

/-- `FundManager::try_unlock`, instrumented with the loop iteration count
(first component).  `none` models a panic of the call. -/
def try_unlock_aux (t : Int) (s : VestingState) :
    Nat × Option (VestingState × Nat) :=
  if t ≤ s.init_timestamp ∨ s.init_timestamp = 0 then (0, some (s, 0))
  else
    let L := ticks_in_round_of s
    let period := period_of s
    -- `expected_round = (timestamp - init_timestamp) / ticks_in_round`:
    -- i64 division by zero panics.
    if L = 0 then (0, none)
    else
      let expected := (wrap64 (t - s.init_timestamp)).tdiv L
      -- `initial_bucket = TOTAL_AMOUNT / (FACTOR * period)`: U256 division
      -- by zero panics; `U256::from` of a negative i64 panics.
      if period = 0 then (0, none)
      else if period < 0 ∨ L < 0 then (0, none)
      else
        let ib := TOTAL_AMOUNT / (FACTOR * period.toNat)
        let fuel := (expected - s.pending_round).toNat + 1
        match unlock_loop t s.init_timestamp L period expected ib fuel
          s.pending_round s.unlocked_ticks 0 ib (ib / L.toNat) 0 with
        | (n, none) => (n, none)
        | (n, some (p, u, fd)) =>
          -- `state.add_balance(&beneficiary, &funding, ..)` then persist
          -- slots 1 and 2.
          if s.balance + fd < U256_LIMIT then
            (n, some ({ s with pending_round := p, unlocked_ticks := u,
                               balance := s.balance + fd }, fd))
          else (n, none)

/-- `FundManager::try_unlock`: returns the updated state and the funding
credited, or `none` if the call panics. -/
def try_unlock (t : Int) (s : VestingState) : Option (VestingState × Nat) :=
  (try_unlock_aux t s).2

/-- Execute `try_unlock` once per timestamp in order, threading the state
and summing the returned amounts; `none` if any call panics. -/
def run_calls : List Int → VestingState → Option (VestingState × Nat)
  | [], s => some (s, 0)
  | t :: ts, s =>
    match try_unlock t s with
    | none => none
    | some (s', f) =>
      match run_calls ts s' with
      | none => none
      | some (s'', F) => some (s'', f + F)

/-- States reachable by the engine: a genesis state (non-zero
`init_timestamp`, zero counters, arbitrary fractions and balance) followed
by any number of non-panicking `try_unlock` calls. -/
inductive Reachable : VestingState → Prop
  | genesis (s : VestingState) : WF s → s.init_timestamp ≠ 0 →
      s.pending_round = 0 → s.unlocked_ticks = 0 → Reachable s
  | step (s s' : VestingState) (t : Int) (f : Nat) : Reachable s →
      isI64 t → try_unlock t s = some (s', f) → Reachable s'

/-- Engine invariant: well-formed fields, non-negative counters, and
`unlocked_ticks` either zero or strictly inside the derived round. -/
def Inv (s : VestingState) : Prop :=
  WF s ∧ 0 ≤ s.pending_round ∧ 0 ≤ s.unlocked_ticks ∧
    (s.unlocked_ticks = 0 ∨ s.unlocked_ticks < ticks_in_round_of s)

/-! ### The closed-form emission schedule -/

/-- The `U256` bucket for round `r`: `initial_bucket / FACTOR^(r / period)`. -/
def round_bucket (ib : Nat) (period r : Int) : Nat :=
  ib / FACTOR ^ (r.tdiv period).toNat

/-- Sum of the buckets of rounds `0, ..., n-1`. -/
def sum_buckets (ib : Nat) (period : Int) : Nat → Nat
  | 0 => 0
  | n + 1 => sum_buckets ib period n + round_bucket ib period n

/-- Total amount credited by the engine for an elapsed time of `d` ticks
since `init_timestamp`: all full rounds plus the ticks inside the current
round. -/
def credited (ib : Nat) (L period d : Int) : Nat :=
  sum_buckets ib period (d.tdiv L).toNat
    + (d.tmod L).toNat * (round_bucket ib period (d.tdiv L) / L.toNat)




end FundManager

/-! ### Arithmetic helper lemmas: `wrap64` and truncating division -/

theorem wrap64_eq_self {x : Int} (h1 : -(2 ^ 63) ≤ x) (h2 : x < 2 ^ 63) :
    wrap64 x = x := by
  unfold wrap64
  rw [Int.bmod_def]
  push_cast
  omega

theorem isI64_wrap64 (x : Int) : isI64 (wrap64 x) := by
  unfold wrap64 isI64
  rw [Int.bmod_def]
  push_cast
  omega

theorem wrap64_emod (x : Int) : wrap64 x % 2 ^ 64 = x % 2 ^ 64 := by
  unfold wrap64
  rw [Int.bmod_def]
  push_cast
  omega

theorem wrap64_congr {x y : Int} (h : x % 2 ^ 64 = y % 2 ^ 64) :
    wrap64 x = wrap64 y := by
  unfold wrap64
  rw [Int.bmod_def, Int.bmod_def]
  push_cast
  omega

theorem wrap64_cases {x : Int} (h1 : -(2 ^ 64) < x) (h2 : x < 2 ^ 64) :
    wrap64 x = x ∨ wrap64 x = x - 2 ^ 64 ∨ wrap64 x = x + 2 ^ 64 := by
  unfold wrap64
  rw [Int.bmod_def]
  push_cast
  omega

theorem neg_tmod' (a b : Int) : (-a).tmod b = -(a.tmod b) := by
  rw [Int.tmod_def, Int.tmod_def, Int.neg_tdiv]
  ring

theorem tmod_bounds {a b : Int} (hb : 0 < b) : -b < a.tmod b ∧ a.tmod b < b := by
  constructor
  · rcases le_or_lt 0 a with ha | ha
    · have := Int.tmod_nonneg b ha
      omega
    · have h1 : (-a).tmod b < b := Int.tmod_lt_of_pos _ hb
      have h2 : (-a).tmod b = -(a.tmod b) := neg_tmod' a b
      omega
  · rcases le_or_lt 0 a with ha | ha
    · exact Int.tmod_lt_of_pos _ hb
    · have h2 : (-a).tmod b = -(a.tmod b) := neg_tmod' a b
      have := Int.tmod_nonneg b (by omega : (0:Int) ≤ -a)
      omega

theorem tmod_eq_self {x b : Int} (h1 : -b < x) (h2 : x < b) : x.tmod b = x := by
  rcases le_or_lt 0 x with hx | hx
  · exact Int.tmod_eq_of_lt hx h2
  · have h3 : (-x).tmod b = -x := Int.tmod_eq_of_lt (by omega) (by omega)
    have h4 : (-x).tmod b = -(x.tmod b) := neg_tmod' x b
    omega

theorem tdiv_isI64 {a b : Int} (ha : isI64 a) (hb : 1 ≤ b) : isI64 (a.tdiv b) := by
  obtain ⟨h1, h2⟩ := ha
  rcases le_or_lt 0 a with hx | hx
  · have e1 : a.tdiv b = a / b := Int.tdiv_eq_ediv hx (by omega)
    have e2 : a / b ≤ a := Int.ediv_le_self b hx
    have e3 : 0 ≤ a / b := Int.ediv_nonneg hx (by omega)
    exact ⟨by omega, by omega⟩
  · have e0 : (-a).tdiv b = -(a.tdiv b) := Int.neg_tdiv a b
    have e1 : (-a).tdiv b = (-a) / b := Int.tdiv_eq_ediv (by omega) (by omega)
    have e2 : (-a) / b ≤ -a := Int.ediv_le_self b (by omega)
    have e3 : 0 ≤ (-a) / b := Int.ediv_nonneg (by omega) (by omega)
    exact ⟨by omega, by omega⟩

theorem tdiv_le_tdiv {a b c : Int} (ha : 0 ≤ a) (hab : a ≤ b) (hc : 0 < c) :
    a.tdiv c ≤ b.tdiv c := by
  rw [Int.tdiv_eq_ediv ha (by omega), Int.tdiv_eq_ediv (by omega) (by omega)]
  exact Int.ediv_le_ediv hc hab

theorem tdiv_le_self' {a b : Int} (ha : 0 ≤ a) (hb : 0 ≤ b) : a.tdiv b ≤ a := by
  rw [Int.tdiv_eq_ediv ha hb]
  exact Int.ediv_le_self b ha

theorem tdiv_tmod_unique {L p u : Int} (hL : 0 < L) (hp : 0 ≤ p)
    (hu0 : 0 ≤ u) (huL : u < L) :
    (L * p + u).tdiv L = p ∧ (L * p + u).tmod L = u := by
  have hd : 0 ≤ L * p + u := by positivity
  have he : (L * p + u) / L = p ∧ (L * p + u) % L = u :=
    (Int.ediv_emod_unique hL).mpr ⟨by ring, hu0, huL⟩
  rw [Int.tdiv_eq_ediv hd (by omega), Int.tmod_eq_emod hd (by omega)]
  exact he

/-- Decompose a non-negative dividend: `L * (d.tdiv L) + d.tmod L = d`
with the remainder in `[0, L)`. -/
theorem tdiv_decomp {d L : Int} (hd : 0 ≤ d) (hL : 0 < L) :
    L * d.tdiv L + d.tmod L = d ∧ 0 ≤ d.tmod L ∧ d.tmod L < L :=
  ⟨Int.tdiv_add_tmod d L, Int.tmod_nonneg L hd, Int.tmod_lt_of_pos d hL⟩

/-- If the loop's Condition-1 test `1 ≤ wrap64 (e - p)` holds and `p ≤ e`
with both in `i64` range, then the difference did not wrap: `p + 1 ≤ e`,
and the increment `p + 1` does not wrap either. -/
theorem cond1_no_wrap {e p : Int} (he : isI64 e) (hp : isI64 p) (hle : p ≤ e)
    (h : 1 ≤ wrap64 (e - p)) : p + 1 ≤ e ∧ wrap64 (p + 1) = p + 1 := by
  obtain ⟨he1, he2⟩ := he
  obtain ⟨hp1, hp2⟩ := hp
  have hb := isI64_wrap64 (e - p)
  obtain ⟨hb1, hb2⟩ := hb
  have hstep : p + 1 ≤ e := by
    rcases @wrap64_cases (e - p) (by omega) (by omega) with hc | hc | hc <;> omega
  exact ⟨hstep, wrap64_eq_self (by omega) (by omega)⟩

/-- Congruence for the Condition-2 update `unlocked_ticks + ticks`: modulo
`2^64` the wrapped sum collapses to `D - L * pending_round`. -/
theorem wrap64_ticks_round {D q u : Int} :
    wrap64 (u + wrap64 (wrap64 (D - wrap64 q) - u)) = wrap64 (D - q) := by
  apply wrap64_congr
  have h1 := wrap64_emod (wrap64 (D - wrap64 q) - u)
  have h2 := wrap64_emod (D - wrap64 q)
  have h3 := wrap64_emod q
  omega

/-- If the Condition-1 test fails while `p ≤ e` and the difference is
wrap-safe, the loop is in its final round: `e = p`. -/
theorem cond2_round_eq {e p : Int} (hle : p ≤ e) (hsafe : e - p < 2 ^ 63)
    (h : ¬ 1 ≤ wrap64 (e - p)) : e = p := by
  have hc : wrap64 (e - p) = e - p := wrap64_eq_self (by omega) hsafe
  omega

namespace FundManager

/-- A successful `recompute` keeps the invariant on `exponent`: the result
exponent is `pending_round / period` and stays in `[0, 255]` (the `U256`
power `2^e` fits). -/
theorem recompute_bounds {L period p ex ex' : Int} {ib bk tb bk' tb' : Nat}
    (h : recompute ib L period p ex bk tb = some (ex', bk', tb'))
    (h0 : 0 ≤ ex) (h255 : ex ≤ 255) :
    ex' = p.tdiv period ∧ 0 ≤ ex' ∧ ex' ≤ 255 := by
  simp only [recompute] at h
  split at h
  · next heq =>
    simp only [Option.some.injEq, Prod.mk.injEq] at h
    exact ⟨by omega, by omega, by omega⟩
  · next hne =>
    split at h
    · simp at h
    · split at h
      · next hneg hpow =>
        simp only [Option.some.injEq, Prod.mk.injEq] at h
        have hlt : (p.tdiv period).toNat < 256 := by
          by_contra hge
          have hmono : (2 : Nat) ^ 256 ≤ 2 ^ (p.tdiv period).toNat :=
            Nat.pow_le_pow_right (by norm_num) (by omega)
          unfold FACTOR U256_LIMIT at hpow
          omega
        exact ⟨by omega, by omega, by omega⟩
      · simp at h

section LoopLemmas

variable (t init L period expected : Int) (ib : Nat)

/-- The loop never decreases `pending_round` (within one call). -/
theorem loop_mono : ∀ fuel p u ex bk tb fd n p' u' fd',
    isI64 p → isI64 expected →
    unlock_loop t init L period expected ib fuel p u ex bk tb fd
      = (n, some (p', u', fd')) →
    p ≤ p' := by
  intro fuel
  induction fuel with
  | zero => intro p u ex bk tb fd n p' u' fd' _ _ h; simp [unlock_loop] at h
  | succ f ih =>
    intro p u ex bk tb fd n p' u' fd' hp he h
    simp only [unlock_loop] at h
    split at h
    · -- p ≤ expected
      next hle =>
      split at h
      · simp at h
      · next ex' bk' tb' heq =>
        split at h
        · -- Condition 1
          next hc1 =>
          split at h
          · simp at h
          · split at h
            · -- successful iteration, recurse
              next hu hchk =>
              simp only [Prod.mk.injEq] at h
              obtain ⟨hw1, hw2⟩ := cond1_no_wrap he hp hle hc1
              have hp1 : isI64 (p + 1) := by
                obtain ⟨a, b⟩ := hp
                obtain ⟨c, d⟩ := he
                exact ⟨by omega, by omega⟩
              have hpair : unlock_loop t init L period expected ib f
                  (wrap64 (p + 1)) 0 ex' bk' tb' (fd + bk' - u.toNat * tb')
                  = ((unlock_loop t init L period expected ib f (wrap64 (p + 1))
                      0 ex' bk' tb' (fd + bk' - u.toNat * tb')).1,
                     some (p', u', fd')) := by
                rw [← h.2]
              have hrec := ih (wrap64 (p + 1)) 0 ex' bk' tb'
                (fd + bk' - u.toNat * tb') _ p' u' fd'
                (by rw [hw2]; exact hp1) he hpair
              rw [hw2] at hrec
              omega
            · simp at h
        · -- Condition 2
          split at h
          · simp at h
          · split at h
            · simp only [Prod.mk.injEq, Option.some.injEq, Prod.mk.injEq] at h
              omega
            · simp at h
    · -- skip: expected < p
      simp only [Prod.mk.injEq, Option.some.injEq, Prod.mk.injEq] at h
      omega

/-- The loop runs at most `(expected - p).toNat + 1` iterations, whether it
completes, panics, or runs out of fuel. -/
theorem loop_count_le : ∀ fuel p u ex bk tb fd,
    isI64 p → isI64 expected →
    (unlock_loop t init L period expected ib fuel p u ex bk tb fd).1
      ≤ (expected - p).toNat + 1 := by
  intro fuel
  induction fuel with
  | zero => intro p u ex bk tb fd _ _; simp [unlock_loop]
  | succ f ih =>
    intro p u ex bk tb fd hp he
    simp only [unlock_loop]
    split
    · next hle =>
      split
      · simp
      · next ex' bk' tb' heq =>
        split
        · next hc1 =>
          split
          · simp
          · split
            · next hu hchk =>
              simp only
              obtain ⟨hw1, hw2⟩ := cond1_no_wrap he hp hle hc1
              have hp1 : isI64 (p + 1) := by
                obtain ⟨a, b⟩ := hp
                obtain ⟨c, d⟩ := he
                exact ⟨by omega, by omega⟩
              have hrec := ih (wrap64 (p + 1)) 0 ex' bk' tb'
                (fd + bk' - u.toNat * tb') (by rw [hw2]; exact hp1) he
              have hcast : ((expected - (wrap64 (p + 1))).toNat : Int)
                  = (expected - p).toNat - 1 := by
                rw [hw2]
                obtain ⟨a, b⟩ := hp
                omega
              omega
            · simp
        · split
          · simp
          · split <;> simp
    · simp

/-- Structure of any successful loop execution entered at a wrap-safe
`pending_round`: it lands exactly on `expected_round`, leaves
`unlocked_ticks = D.tmod L` for `D = wrap64 (timestamp - init_timestamp)`,
runs exactly `expected - p + 1` iterations, keeps the halving exponent of
the final round in `[0, 255]`, and (for a well-formed entry state) certifies
`0 ≤ D`. -/
theorem loop_master (hL1 : 1 ≤ L) (hLmax : L ≤ TICKS_IN_ROUND)
    (hexp : expected = (wrap64 (t - init)).tdiv L) :
    ∀ fuel p u ex bk tb fd n p' u' fd',
      isI64 p → expected - p < 2 ^ 63 → 0 ≤ ex → ex ≤ 255 →
      unlock_loop t init L period expected ib fuel p u ex bk tb fd
        = (n, some (p', u', fd')) →
      if p ≤ expected then
        p' = expected ∧ u' = (wrap64 (t - init)).tmod L ∧
        n = (expected - p).toNat + 1 ∧
        0 ≤ expected.tdiv period ∧ expected.tdiv period ≤ 255 ∧
        (0 ≤ p → 0 ≤ u → u < L → 0 ≤ wrap64 (t - init))
      else p' = p ∧ u' = u ∧ fd' = fd ∧ n = 0 := by
  have hTV : TICKS_IN_ROUND = 2592000 := by norm_num [TICKS_IN_ROUND]
  have hexpI : isI64 expected := hexp ▸ tdiv_isI64 (isI64_wrap64 _) hL1
  intro fuel
  induction fuel with
  | zero => intro p u ex bk tb fd n p' u' fd' _ _ _ _ h; simp [unlock_loop] at h
  | succ f ih =>
    intro p u ex bk tb fd n p' u' fd' hp hsafe hex0 hex255 h
    simp only [unlock_loop] at h
    split at h
    · -- p ≤ expected
      next hle =>
      rw [if_pos hle]
      split at h
      · simp at h
      · next ex' bk' tb' heq =>
        obtain ⟨hexr, hexr0, hexr255⟩ := recompute_bounds heq hex0 hex255
        split at h
        · -- Condition 1: recursive case
          next hc1 =>
          split at h
          · simp at h
          · split at h
            · next hu hchk =>
              simp only [Prod.mk.injEq] at h
              obtain ⟨hw1, hw2⟩ := cond1_no_wrap hexpI hp hle hc1
              rw [hw2] at h
              have hp1 : isI64 (p + 1) := by
                obtain ⟨a, b⟩ := hp
                obtain ⟨c, d⟩ := hexpI
                exact ⟨by omega, by omega⟩
              have hpair : unlock_loop t init L period expected ib f
                  (p + 1) 0 ex' bk' tb' (fd + bk' - u.toNat * tb')
                  = ((unlock_loop t init L period expected ib f (p + 1)
                      0 ex' bk' tb' (fd + bk' - u.toNat * tb')).1,
                     some (p', u', fd')) := by
                rw [← h.2]
              have hrec := ih (p + 1) 0 ex' bk' tb'
                (fd + bk' - u.toNat * tb') _ p' u' fd' hp1
                (by obtain ⟨a, b⟩ := hp; omega) hexr0 hexr255 hpair
              rw [if_pos hw1] at hrec
              obtain ⟨r1, r2, r3, r4, r5, -⟩ := hrec
              refine ⟨r1, r2, ?_, r4, r5, ?_⟩
              · obtain ⟨a, b⟩ := hp
                omega
              · -- 1 ≤ expected forces 0 ≤ D
                intro hp0 hu0 huL
                have hdec := Int.tdiv_add_tmod (wrap64 (t - init)) L
                have hmb := @tmod_bounds (wrap64 (t - init)) L (by omega)
                have he1 : 1 ≤ (wrap64 (t - init)).tdiv L := by
                  rw [← hexp]
                  omega
                have hmul : L * 1 ≤ L * ((wrap64 (t - init)).tdiv L) :=
                  mul_le_mul_of_nonneg_left he1 (by omega)
                have hmul' : L ≤ L * ((wrap64 (t - init)).tdiv L) := by
                  rw [mul_one] at hmul
                  exact hmul
                omega
            · simp at h
        · -- Condition 2: final round
          next hc1 =>
          have hpe : expected = p := cond2_round_eq hle hsafe hc1
          split at h
          · simp at h
          · next hticks =>
            split at h
            · next hchk =>
              simp only [Prod.mk.injEq, Option.some.injEq, Prod.mk.injEq] at h
              obtain ⟨hn, hps, hus, -⟩ := h
              set D := wrap64 (t - init) with hD
              have hDi : isI64 D := by
                rw [hD]
                exact isI64_wrap64 _
              -- `wrap64 (u + ticks) = wrap64 (D - L * p)` by congruence mod 2^64
              have hA : wrap64 (u + wrap64 (wrap64 (D - wrap64 (L * p)) - u))
                  = wrap64 (D - L * p) := @wrap64_ticks_round D (L * p) u
              -- with p = expected, `D - L * p` is exactly `D.tmod L`
              have hdec := Int.tdiv_add_tmod D L
              have hmb := @tmod_bounds D L (by omega)
              have hpv : p = D.tdiv L := by
                rw [← hpe, hexp]
              have hBv : D - L * p = D.tmod L := by
                rw [hpv]
                omega
              have hB : wrap64 (D - L * p) = D.tmod L := by
                rw [hBv]
                exact wrap64_eq_self (by omega) (by omega)
              have hu' : u' = D.tmod L := by
                rw [← hus, hA, hB]
                exact tmod_eq_self (by omega) (by omega)
              refine ⟨by omega, hu', by omega, ?_, ?_, ?_⟩
              · rw [hpe, ← hexr]
                exact hexr0
              · rw [hpe, ← hexr]
                exact hexr255
              · -- 0 ≤ u < L and success force 0 ≤ D
                intro hp0 hu0 huL
                by_contra hDneg
                push_neg at hDneg
                -- D < 0 with expected = p ≥ 0 forces p = 0 and -L < D
                have hles : D.tdiv L ≤ 0 := by
                  have h1 : (-D).tdiv L = -(D.tdiv L) := Int.neg_tdiv D L
                  have h2 : 0 ≤ (-D).tdiv L := Int.tdiv_nonneg (by omega) (by omega)
                  omega
                have hp0' : p = 0 := by omega
                have hDgt : -L < D := by
                  have h1 := neg_tmod' D L
                  have h2 := @Int.tmod_nonneg (-D) L (by omega)
                  have h3 : D.tdiv L = 0 := by omega
                  have h4 := Int.tdiv_add_tmod D L
                  rw [h3, mul_zero] at h4
                  omega
                -- then ticks = D - u < 0, contradicting the success branch
                have hX2 : wrap64 (L * p) = 0 := by
                  rw [hp0', mul_zero]
                  exact wrap64_eq_self (by norm_num) (by norm_num)
                have hX3 : wrap64 (D - wrap64 (L * p)) = D := by
                  rw [hX2, sub_zero]
                  exact wrap64_eq_self hDi.1 hDi.2
                have hT : wrap64 (wrap64 (D - wrap64 (L * p)) - u) = D - u := by
                  rw [hX3]
                  obtain ⟨a, b⟩ := hDi
                  exact wrap64_eq_self (by omega) (by omega)
                rw [hT] at hticks
                omega
            · simp at h
    · -- skip: expected < p
      next hle =>
      rw [if_neg hle]
      simp only [Prod.mk.injEq, Option.some.injEq, Prod.mk.injEq] at h
      exact ⟨h.2.1.symm, h.2.2.1.symm, h.2.2.2.symm, h.1.symm⟩

end LoopLemmas

/-- `recompute` succeeds whenever the target exponent is in `[0, 255]`. -/
theorem recompute_ne_none {L period p ex : Int} {ib bk tb : Nat}
    (h0 : 0 ≤ p.tdiv period) (h255 : p.tdiv period ≤ 255) :
    recompute ib L period p ex bk tb ≠ none := by
  simp only [recompute]
  split
  · simp
  · split
    · next hlt => omega
    · split
      · simp
      · next hne hneg hpow =>
        exfalso
        apply hpow
        have h1 : (p.tdiv period).toNat ≤ 255 := by omega
        have h2 : FACTOR ^ (p.tdiv period).toNat ≤ FACTOR ^ 255 :=
          Nat.pow_le_pow_right (by norm_num [FACTOR]) h1
        have h3 : (FACTOR : Nat) ^ 255 < U256_LIMIT := by
          norm_num [FACTOR, U256_LIMIT]
        omega

section LoopIdem

variable (t init L period expected : Int) (ib : Nat)

/-- Forward evaluation of the loop when entered exactly at the expected
round with `unlocked_ticks` already reflecting the timestamp: a single
Condition-2 iteration crediting zero and changing nothing. -/
theorem loop_idem (hL1 : 1 ≤ L) (hLmax : L ≤ TICKS_IN_ROUND)
    (hexp : expected = (wrap64 (t - init)).tdiv L)
    (hE0 : 0 ≤ expected.tdiv period) (hE255 : expected.tdiv period ≤ 255) :
    ∀ fuel, 1 ≤ fuel →
    unlock_loop t init L period expected ib fuel expected
      ((wrap64 (t - init)).tmod L) 0 ib (ib / L.toNat) 0
      = (1, some (expected, (wrap64 (t - init)).tmod L, 0)) := by
  intro fuel hfuel
  obtain ⟨f, rfl⟩ : ∃ f, fuel = f + 1 := ⟨fuel - 1, by omega⟩
  set D := wrap64 (t - init) with hD
  have hDi : isI64 D := by
    rw [hD]
    exact isI64_wrap64 _
  have hdec := Int.tdiv_add_tmod D L
  have hmb := @tmod_bounds D L (by omega)
  have hsign : (0 ≤ D ∧ 0 ≤ D.tmod L) ∨ (D < 0 ∧ D.tmod L ≤ 0) := by
    rcases le_or_lt 0 D with hDs | hDs
    · exact Or.inl ⟨hDs, Int.tmod_nonneg L hDs⟩
    · refine Or.inr ⟨hDs, ?_⟩
      have h1 := neg_tmod' D L
      have h2 := Int.tmod_nonneg L (show (0:Int) ≤ -D by omega)
      omega
  have hTV : TICKS_IN_ROUND = 2592000 := by norm_num [TICKS_IN_ROUND]
  simp only [unlock_loop]
  rw [if_pos (le_refl expected)]
  rcases hrec : recompute ib L period expected 0 ib (ib / L.toNat)
    with _ | ⟨ex', bk', tb'⟩
  · exact absurd hrec (recompute_ne_none hE0 hE255)
  · have h0 : wrap64 (expected - expected) = 0 := by
      rw [sub_self]
      exact wrap64_eq_self (by norm_num) (by norm_num)
    have hLv : wrap64 (L * expected) = L * expected := by
      rw [hexp]
      obtain ⟨a, b⟩ := hDi
      exact wrap64_eq_self (by omega) (by omega)
    have hXv : D - L * expected = D.tmod L := by
      rw [hexp]
      omega
    have hw : wrap64 (D.tmod L) = D.tmod L := by
      exact wrap64_eq_self (by omega) (by omega)
    have hX3 : wrap64 (D - wrap64 (L * expected)) = D.tmod L := by
      rw [hLv, hXv]
      exact hw
    have hticks : wrap64 (wrap64 (D - wrap64 (L * expected)) - D.tmod L) = 0 := by
      rw [hX3, sub_self]
      exact wrap64_eq_self (by norm_num) (by norm_num)
    have htm : (D.tmod L).tmod L = D.tmod L := tmod_eq_self (by omega) (by omega)
    dsimp only
    rw [← hD]
    rw [h0, if_neg (by norm_num : ¬ (1:Int) ≤ 0)]
    rw [hticks, if_neg (by norm_num : ¬ (0:Int) < 0)]
    simp only [Int.toNat_zero, Nat.zero_mul, Nat.add_zero, Nat.zero_add,
      add_zero, hw, htm]
    rw [if_pos]
    constructor <;> norm_num [U256_LIMIT]

end LoopIdem

theorem round_bucket_le (ib : Nat) (period r : Int) :
    round_bucket ib period r ≤ ib := Nat.div_le_self _ _

theorem mul_div_le_of_lt {a l b : Nat} (h : a < l) : a * (b / l) ≤ b := by
  have h1 : b / l * l ≤ b := Nat.div_mul_le_self b l
  have h2 : a * (b / l) = (b / l) * a := Nat.mul_comm _ _
  have h3 : (b / l) * a ≤ (b / l) * l := Nat.mul_le_mul_left _ (by omega)
  omega

theorem sum_buckets_mono (ib : Nat) (period : Int) {n m : Nat} (h : n ≤ m) :
    sum_buckets ib period n ≤ sum_buckets ib period m := by
  induction m with
  | zero =>
    have : n = 0 := by omega
    rw [this]
  | succ k ih =>
    rcases Nat.lt_or_ge n (k + 1) with hk | hk
    · have := ih (by omega)
      simp only [sum_buckets]
      omega
    · have : n = k + 1 := by omega
      rw [this]

theorem sum_buckets_le (ib : Nat) (period : Int) (n : Nat) :
    sum_buckets ib period n ≤ n * ib := by
  induction n with
  | zero => simp [sum_buckets]
  | succ k ih =>
    have h1 := round_bucket_le ib period k
    have h2 : (k + 1) * ib = k * ib + ib := by ring
    simp only [sum_buckets]
    omega

theorem credited_zero (ib : Nat) (L period : Int) :
    credited ib L period 0 = 0 := by
  simp [credited, sum_buckets]

theorem credited_le (ib : Nat) (L period d : Int) (hL : 0 < L) :
    credited ib L period d ≤ ((d.tdiv L).toNat + 1) * ib := by
  unfold credited
  have h1 := sum_buckets_le ib period (d.tdiv L).toNat
  have hm := @tmod_bounds d L hL
  have h2 : (d.tmod L).toNat * (round_bucket ib period (d.tdiv L) / L.toNat)
      ≤ round_bucket ib period (d.tdiv L) := by
    apply mul_div_le_of_lt
    omega
  have h3 := round_bucket_le ib period (d.tdiv L)
  have h4 : ((d.tdiv L).toNat + 1) * ib = (d.tdiv L).toNat * ib + ib := by ring
  omega

/-- Crediting the remainder of the round containing `d0` advances the
schedule to the round boundary `(d0.tdiv L + 1) * L`. -/
theorem credited_step {ib : Nat} {L period d0 : Int} (hL : 0 < L)
    (hd0 : 0 ≤ d0) :
    credited ib L period ((d0.tdiv L + 1) * L)
      + (d0.tmod L).toNat * (round_bucket ib period (d0.tdiv L) / L.toNat)
      = credited ib L period d0 + round_bucket ib period (d0.tdiv L) := by
  have hp : 0 ≤ d0.tdiv L := Int.tdiv_nonneg hd0 (by omega)
  have h1 : ((d0.tdiv L + 1) * L).tdiv L = d0.tdiv L + 1 :=
    Int.mul_tdiv_cancel _ (by omega)
  have h2 : ((d0.tdiv L + 1) * L).tmod L = 0 := Int.mul_tmod_left _ _
  unfold credited
  rw [h1, h2]
  have h3 : (d0.tdiv L + 1).toNat = (d0.tdiv L).toNat + 1 := by omega
  rw [h3]
  simp only [sum_buckets]
  have h4 : ((d0.tdiv L).toNat : Int) = d0.tdiv L := Int.toNat_of_nonneg hp
  rw [h4]
  simp only [Int.toNat_zero, Nat.zero_mul, Nat.add_zero]
  omega

/-- Forward evaluation of `recompute` when the invariant holds and the
target exponent is in range. -/
theorem recompute_eval {L period p ex : Int} {ib bk tb : Nat}
    (hbk : bk = ib / FACTOR ^ ex.toNat) (htb : tb = bk / L.toNat)
    (h0 : 0 ≤ p.tdiv period) (h255 : p.tdiv period ≤ 255) :
    recompute ib L period p ex bk tb
      = some (p.tdiv period, ib / FACTOR ^ (p.tdiv period).toNat,
              ib / FACTOR ^ (p.tdiv period).toNat / L.toNat) := by
  simp only [recompute]
  split
  · next heq =>
    subst heq
    rw [hbk, htb, hbk]
  · split
    · next hneg => omega
    · split
      · rfl
      · next hne hneg hpow =>
        exfalso
        apply hpow
        have h1 : (p.tdiv period).toNat ≤ 255 := by omega
        have h2 : FACTOR ^ (p.tdiv period).toNat ≤ FACTOR ^ 255 :=
          Nat.pow_le_pow_right (by norm_num [FACTOR]) h1
        have h3 : (FACTOR : Nat) ^ 255 < U256_LIMIT := by
          norm_num [FACTOR, U256_LIMIT]
        omega

theorem credited_mono {ib : Nat} {L period d0 d : Int} (hL : 0 < L)
    (h0 : 0 ≤ d0) (hle : d0 ≤ d) :
    credited ib L period d0 ≤ credited ib L period d := by
  have he : d0.tdiv L ≤ d.tdiv L := tdiv_le_tdiv h0 hle hL
  have hd0 := tdiv_decomp h0 hL
  have hdd := tdiv_decomp (by omega : (0:Int) ≤ d) hL
  have hdiv0 : 0 ≤ d0.tdiv L := Int.tdiv_nonneg h0 (by omega)
  rcases eq_or_lt_of_le he with heq | hlt
  · -- same round: only the partial-tick term grows
    unfold credited
    rw [heq]
    have hm : d0.tmod L ≤ d.tmod L := by
      have e1 : L * (d0.tdiv L) = L * (d.tdiv L) := by rw [heq]
      omega
    have : (d0.tmod L).toNat ≤ (d.tmod L).toNat := by omega
    have := Nat.mul_le_mul_right
      (round_bucket ib period (d.tdiv L) / L.toNat) this
    omega
  · -- strictly later round: partial ≤ full bucket, then sum monotonicity
    unfold credited
    have hpart : (d0.tmod L).toNat
        * (round_bucket ib period (d0.tdiv L) / L.toNat)
        ≤ round_bucket ib period (d0.tdiv L) := by
      apply mul_div_le_of_lt
      omega
    have hsum1 : sum_buckets ib period ((d0.tdiv L).toNat + 1)
        = sum_buckets ib period (d0.tdiv L).toNat
          + round_bucket ib period (d0.tdiv L) := by
      simp only [sum_buckets]
      congr 2
      omega
    have hsum2 : sum_buckets ib period ((d0.tdiv L).toNat + 1)
        ≤ sum_buckets ib period (d.tdiv L).toNat :=
      sum_buckets_mono ib period (by omega)
    omega

section LoopAligned

variable (t init L period expected : Int) (ib : Nat)

/-- Full characterization of a successful loop execution from an "aligned"
state (one whose `pending_round` / `unlocked_ticks` encode a previous
virtual elapsed time `d0 <= D`): the loop completes without panic and
credits exactly the closed-form schedule difference
`credited D - credited d0`. -/
theorem loop_aligned (hL1 : 1 ≤ L) (hLmax : L ≤ TICKS_IN_ROUND)
    (hper : 1 ≤ period)
    (hD0 : 0 ≤ wrap64 (t - init)) (hexp : expected = (wrap64 (t - init)).tdiv L)
    (hE255 : expected.tdiv period ≤ 255) :
    ∀ fuel d0 p u ex bk tb fd,
      0 ≤ d0 → d0 ≤ wrap64 (t - init) →
      p = d0.tdiv L → u = d0.tmod L →
      0 ≤ ex → bk = ib / FACTOR ^ ex.toNat → tb = bk / L.toNat →
      (expected - p).toNat + 1 ≤ fuel →
      fd + ((expected - p).toNat + 1) * ib < U256_LIMIT →
      ∃ F, unlock_loop t init L period expected ib fuel p u ex bk tb fd
          = ((expected - p).toNat + 1,
             some (expected, (wrap64 (t - init)).tmod L, F)) ∧
        F + credited ib L period d0
          = fd + credited ib L period (wrap64 (t - init)) := by
  have hTV : TICKS_IN_ROUND = 2592000 := by norm_num [TICKS_IN_ROUND]
  intro fuel
  induction fuel with
  | zero =>
    intro d0 p u ex bk tb fd _ _ _ _ _ _ _ hfuel _
    omega
  | succ f ih =>
    intro d0 p u ex bk tb fd hd00 hd0D hp hu hex0 hbk htb hfuel hfd
    set D := wrap64 (t - init) with hD
    have hDi : isI64 D := by
      rw [hD]
      exact isI64_wrap64 _
    have hdecD := tdiv_decomp hD0 (show (0:Int) < L by omega)
    have hdec0 := tdiv_decomp hd00 (show (0:Int) < L by omega)
    have hp0 : 0 ≤ p := by
      rw [hp]
      exact Int.tdiv_nonneg hd00 (by omega)
    have hpe : p ≤ expected := by
      rw [hp, hexp]
      exact tdiv_le_tdiv hd00 hd0D (by omega)
    have hexpnn : 0 ≤ expected := by
      rw [hexp]
      exact Int.tdiv_nonneg hD0 (by omega)
    have hexpD : expected ≤ D := by
      rw [hexp]
      exact tdiv_le_self' hD0 (by omega)
    have hu0 : 0 ≤ u := by
      rw [hu]
      exact hdec0.2.1
    have huL : u < L := by
      rw [hu]
      exact hdec0.2.2
    have he1nn : 0 ≤ p.tdiv period := Int.tdiv_nonneg hp0 (by omega)
    have he1le : p.tdiv period ≤ expected.tdiv period :=
      tdiv_le_tdiv hp0 hpe (by omega)
    have hbk'le : ib / FACTOR ^ (p.tdiv period).toNat ≤ ib := Nat.div_le_self _ _
    have hibs : ib ≤ ((expected - p).toNat + 1) * ib :=
      Nat.le_mul_of_pos_left ib (by omega)
    simp only [unlock_loop]
    rw [if_pos hpe, recompute_eval hbk htb he1nn (by omega)]
    dsimp only
    rcases eq_or_lt_of_le hpe with hpeq | hplt
    · -- Condition 2: `p = expected`, the final (current) round
      have h0 : wrap64 (expected - p) = 0 := by
        rw [← hpeq, sub_self]
        exact wrap64_eq_self (by norm_num) (by norm_num)
      rw [← hD, h0, if_neg (by norm_num : ¬ (1:Int) ≤ 0)]
      have hLv : wrap64 (L * p) = L * p := by
        rw [hpeq, hexp]
        obtain ⟨a, b⟩ := hDi
        apply wrap64_eq_self <;> omega
      have hXv : D - L * p = D.tmod L := by
        rw [hpeq, hexp]
        omega
      have hwDm : wrap64 (D.tmod L) = D.tmod L := by
        apply wrap64_eq_self <;> omega
      have hX3 : wrap64 (D - wrap64 (L * p)) = D.tmod L := by
        rw [hLv, hXv]
        exact hwDm
      have hticks : wrap64 (wrap64 (D - wrap64 (L * p)) - u) = D.tmod L - u := by
        rw [hX3]
        apply wrap64_eq_self <;> omega
      have hsame : d0.tdiv L = D.tdiv L := by
        rw [← hp, hpeq, hexp]
      have hLe : L * (d0.tdiv L) = L * (D.tdiv L) := by
        rw [hsame]
      have hτ0 : 0 ≤ D.tmod L - u := by
        rw [hu]
        omega
      rw [hticks, if_neg (by omega : ¬ D.tmod L - u < 0)]
      have hτb : (D.tmod L - u).toNat
          * (ib / FACTOR ^ (p.tdiv period).toNat / L.toNat)
          ≤ ib / FACTOR ^ (p.tdiv period).toNat :=
        mul_div_le_of_lt (by omega)
      rw [if_pos ⟨by omega, by omega⟩]
      refine ⟨fd + (D.tmod L - u).toNat
        * (ib / FACTOR ^ (p.tdiv period).toNat / L.toNat), ?_, ?_⟩
      · have hut : wrap64 (u + (D.tmod L - u)) = D.tmod L := by
          have huu : u + (D.tmod L - u) = D.tmod L := by ring
          rw [huu]
          exact hwDm
        have htm : (D.tmod L).tmod L = D.tmod L := tmod_eq_self (by omega) (by omega)
        rw [hut, htm, ← hpeq, sub_self]
        norm_num
      · -- schedule difference within a single round
        have hrb : round_bucket ib period (D.tdiv L)
            = ib / FACTOR ^ (p.tdiv period).toNat := by
          unfold round_bucket
          rw [hpeq, hexp]
        unfold credited
        rw [hsame, ← hu]
        have hsplit : (D.tmod L).toNat = (D.tmod L - u).toNat + u.toNat := by
          omega
        rw [hsplit, Nat.add_mul, hrb]
        omega
    · -- Condition 1: `p < expected`, credit the full round and recurse
      have hw : wrap64 (expected - p) = expected - p := by
        obtain ⟨a, b⟩ := hDi
        apply wrap64_eq_self <;> omega
      rw [← hD, hw, if_pos (by omega : 1 ≤ expected - p),
        if_neg (by omega : ¬ u < 0)]
      have hub : u.toNat * (ib / FACTOR ^ (p.tdiv period).toNat / L.toNat)
          ≤ ib / FACTOR ^ (p.tdiv period).toNat :=
        mul_div_le_of_lt (by omega)
      rw [if_pos ⟨by omega, by omega, by omega⟩]
      have hwp : wrap64 (p + 1) = p + 1 := by
        obtain ⟨a, b⟩ := hDi
        apply wrap64_eq_self <;> omega
      rw [hwp]
      have hcomm : (D.tdiv L) * L = L * (D.tdiv L) := mul_comm _ _
      have hmul1 : (p + 1) * L ≤ (D.tdiv L) * L := by
        apply mul_le_mul_of_nonneg_right _ (by omega)
        rw [hexp] at hplt
        omega
      have hcnt : ((expected - p).toNat + 1) * ib
          = ((expected - (p + 1)).toNat + 1) * ib + ib := by
        have h5 : (expected - p).toNat = (expected - (p + 1)).toNat + 1 := by
          omega
        rw [h5]
        ring
      have hstep := ih ((p + 1) * L) (p + 1) 0 (p.tdiv period)
        (ib / FACTOR ^ (p.tdiv period).toNat)
        (ib / FACTOR ^ (p.tdiv period).toNat / L.toNat)
        (fd + ib / FACTOR ^ (p.tdiv period).toNat
          - u.toNat * (ib / FACTOR ^ (p.tdiv period).toNat / L.toNat))
        (by positivity) (by omega)
        (Int.mul_tdiv_cancel _ (by omega)).symm
        (Int.mul_tmod_left _ _).symm
        he1nn rfl rfl (by omega) (by omega)
      obtain ⟨F, hFeq, hFsum⟩ := hstep
      refine ⟨F, ?_, ?_⟩
      · rw [hFeq]
        simp only [Prod.mk.injEq]
        exact ⟨by omega, trivial⟩
      · have hbridge := @credited_step ib L period d0 (by omega) hd00
        rw [← hp, ← hu] at hbridge
        have hrb : round_bucket ib period p
            = ib / FACTOR ^ (p.tdiv period).toNat := rfl
        rw [hrb] at hbridge
        omega

end LoopAligned

/-! ### Call-level lemmas about `try_unlock` -/

theorem ticks_in_round_of_nonneg (s : VestingState) : 0 ≤ ticks_in_round_of s := by
  unfold ticks_in_round_of
  split
  · exact Int.tdiv_nonneg (by norm_num [TICKS_IN_ROUND]) (by omega)
  · norm_num [TICKS_IN_ROUND]

theorem ticks_in_round_of_le (s : VestingState) :
    ticks_in_round_of s ≤ TICKS_IN_ROUND := by
  unfold ticks_in_round_of
  split
  · exact tdiv_le_self' (by norm_num [TICKS_IN_ROUND]) (by omega)
  · exact le_refl _

theorem period_of_nonneg (s : VestingState) : 0 ≤ period_of s := by
  unfold period_of
  split
  · exact Int.tdiv_nonneg (by norm_num [PERIOD]) (by omega)
  · norm_num [PERIOD]

/-- The guard of `try_unlock`: unconfigured or not-yet-started states are
no-ops. -/
theorem try_unlock_guard {t : Int} {s : VestingState}
    (h : t ≤ s.init_timestamp ∨ s.init_timestamp = 0) :
    try_unlock t s = some (s, 0) := by
  unfold try_unlock try_unlock_aux
  rw [if_pos h]

/-- Dissection of a successful non-guard call: the derived divisors are
positive, the loop succeeded, and the result state is the input state with
only `pending_round`, `unlocked_ticks` and `balance` replaced. -/
theorem try_unlock_aux_some {t : Int} {s : VestingState} {n : Nat}
    {s' : VestingState} {f : Nat}
    (h : try_unlock_aux t s = (n, some (s', f)))
    (hg : ¬ (t ≤ s.init_timestamp ∨ s.init_timestamp = 0)) :
    ∃ p u,
      unlock_loop t s.init_timestamp (ticks_in_round_of s) (period_of s)
          ((wrap64 (t - s.init_timestamp)).tdiv (ticks_in_round_of s))
          (TOTAL_AMOUNT / (FACTOR * (period_of s).toNat))
          (((wrap64 (t - s.init_timestamp)).tdiv (ticks_in_round_of s)
            - s.pending_round).toNat + 1)
          s.pending_round s.unlocked_ticks 0
          (TOTAL_AMOUNT / (FACTOR * (period_of s).toNat))
          (TOTAL_AMOUNT / (FACTOR * (period_of s).toNat)
            / (ticks_in_round_of s).toNat) 0
        = (n, some (p, u, f)) ∧
      1 ≤ ticks_in_round_of s ∧ 1 ≤ period_of s ∧
      s' = { s with pending_round := p, unlocked_ticks := u,
                    balance := s.balance + f } ∧
      s.balance + f < U256_LIMIT := by
  have hLnn := ticks_in_round_of_nonneg s
  have hPnn := period_of_nonneg s
  simp only [try_unlock_aux] at h
  rw [if_neg hg] at h
  split at h
  · simp at h
  · next hL0 =>
    split at h
    · simp at h
    · next hP0 =>
      split at h
      · simp at h
      · next hneg =>
        rcases hloop : unlock_loop t s.init_timestamp (ticks_in_round_of s)
            (period_of s)
            ((wrap64 (t - s.init_timestamp)).tdiv (ticks_in_round_of s))
            (TOTAL_AMOUNT / (FACTOR * (period_of s).toNat))
            (((wrap64 (t - s.init_timestamp)).tdiv (ticks_in_round_of s)
              - s.pending_round).toNat + 1)
            s.pending_round s.unlocked_ticks 0
            (TOTAL_AMOUNT / (FACTOR * (period_of s).toNat))
            (TOTAL_AMOUNT / (FACTOR * (period_of s).toNat)
              / (ticks_in_round_of s).toNat) 0 with ⟨m, r⟩
        rw [hloop] at h
        rcases r with _ | ⟨p, u, fd⟩
        · simp at h
        · dsimp only at h
          split at h
          · next hbal =>
            simp only [Prod.mk.injEq, Option.some.injEq] at h
            obtain ⟨hn, hs', hf⟩ := h
            subst hn
            subst hf
            subst hs'
            exact ⟨p, u, rfl, by omega, by omega, rfl, hbal⟩
          · simp at h

/-- A call at timestamp `t` from a state aligned at a previous virtual
elapsed time `d0` succeeds and credits exactly the schedule difference,
leaving the state aligned at `t - init_timestamp`.  `ib`, `L`, `period`
abbreviate the derived call parameters. -/
theorem try_unlock_aligned {s : VestingState} {t d0 : Int}
    (ht : isI64 t) (hinit : 0 < s.init_timestamp)
    (hL1 : 1 ≤ ticks_in_round_of s) (hper : 1 ≤ period_of s)
    (hp : s.pending_round = d0.tdiv (ticks_in_round_of s))
    (hu : s.unlocked_ticks = d0.tmod (ticks_in_round_of s))
    (hd00 : 0 ≤ d0) (hd0D : d0 ≤ t - s.init_timestamp)
    (htgt : s.init_timestamp < t)
    (hE255 : ((t - s.init_timestamp).tdiv (ticks_in_round_of s)).tdiv
      (period_of s) ≤ 255)
    (hbal : s.balance
        + credited (TOTAL_AMOUNT / (FACTOR * (period_of s).toNat))
            (ticks_in_round_of s) (period_of s) (t - s.init_timestamp)
      < U256_LIMIT
        + credited (TOTAL_AMOUNT / (FACTOR * (period_of s).toNat))
            (ticks_in_round_of s) (period_of s) d0) :
    ∃ F, try_unlock t s = some
        ({ s with
            pending_round := (t - s.init_timestamp).tdiv (ticks_in_round_of s),
            unlocked_ticks := (t - s.init_timestamp).tmod (ticks_in_round_of s),
            balance := s.balance + F }, F)
      ∧ F + credited (TOTAL_AMOUNT / (FACTOR * (period_of s).toNat))
            (ticks_in_round_of s) (period_of s) d0
        = credited (TOTAL_AMOUNT / (FACTOR * (period_of s).toNat))
            (ticks_in_round_of s) (period_of s) (t - s.init_timestamp) := by
  have hDw : wrap64 (t - s.init_timestamp) = t - s.init_timestamp := by
    obtain ⟨a, b⟩ := ht
    apply wrap64_eq_self <;> omega
  have hD0 : 0 ≤ wrap64 (t - s.init_timestamp) := by omega
  have hexpnn : 0 ≤ (wrap64 (t - s.init_timestamp)).tdiv (ticks_in_round_of s) :=
    Int.tdiv_nonneg hD0 (by omega)
  have hexpD : (wrap64 (t - s.init_timestamp)).tdiv (ticks_in_round_of s)
      ≤ wrap64 (t - s.init_timestamp) := tdiv_le_self' hD0 (by omega)
  have hpnn : 0 ≤ s.pending_round := by
    rw [hp]
    exact Int.tdiv_nonneg hd00 (by omega)
  have hcnt : ((wrap64 (t - s.init_timestamp)).tdiv (ticks_in_round_of s)
      - s.pending_round).toNat + 1 ≤ 2 ^ 63 := by
    obtain ⟨a, b⟩ := ht
    omega
  have hible : TOTAL_AMOUNT / (FACTOR * (period_of s).toNat) ≤ TOTAL_AMOUNT :=
    Nat.div_le_self _ _
  have hfd : (0:Nat) + (((wrap64 (t - s.init_timestamp)).tdiv (ticks_in_round_of s)
      - s.pending_round).toNat + 1)
        * (TOTAL_AMOUNT / (FACTOR * (period_of s).toNat)) < U256_LIMIT := by
    have h1 : (((wrap64 (t - s.init_timestamp)).tdiv (ticks_in_round_of s)
        - s.pending_round).toNat + 1)
          * (TOTAL_AMOUNT / (FACTOR * (period_of s).toNat))
        ≤ 2 ^ 63 * TOTAL_AMOUNT := Nat.mul_le_mul hcnt hible
    have h2 : 2 ^ 63 * TOTAL_AMOUNT < U256_LIMIT := by
      norm_num [TOTAL_AMOUNT, U256_LIMIT]
    omega
  obtain ⟨F, hFeq, hFsum⟩ := loop_aligned t s.init_timestamp
    (ticks_in_round_of s) (period_of s)
    ((wrap64 (t - s.init_timestamp)).tdiv (ticks_in_round_of s))
    (TOTAL_AMOUNT / (FACTOR * (period_of s).toNat))
    hL1 (ticks_in_round_of_le s) hper hD0 rfl (by rw [hDw]; exact hE255)
    (((wrap64 (t - s.init_timestamp)).tdiv (ticks_in_round_of s)
      - s.pending_round).toNat + 1)
    d0 s.pending_round s.unlocked_ticks 0
    (TOTAL_AMOUNT / (FACTOR * (period_of s).toNat))
    (TOTAL_AMOUNT / (FACTOR * (period_of s).toNat) / (ticks_in_round_of s).toNat)
    0 hd00 (by omega) hp hu (le_refl 0)
    (by norm_num [FACTOR]) rfl (le_refl _) hfd
  rw [hDw] at hFsum
  rw [Nat.zero_add] at hFsum
  have hFle : s.balance + F < U256_LIMIT := by omega
  refine ⟨F, ?_, hFsum⟩
  unfold try_unlock try_unlock_aux
  rw [if_neg (by omega : ¬ (t ≤ s.init_timestamp ∨ s.init_timestamp = 0))]
  simp only
  rw [if_neg (by omega : ¬ ticks_in_round_of s = 0),
    if_neg (by omega : ¬ period_of s = 0),
    if_neg (by omega : ¬ (period_of s < 0 ∨ ticks_in_round_of s < 0)), hFeq]
  dsimp only
  rw [if_pos hFle, hDw]

/-- When the expected round is strictly before the pending round, the loop
body never runs: nothing is credited and the state is unchanged. -/
theorem loop_skip {t init L period expected : Int} {ib : Nat}
    {fuel : Nat} {p u ex : Int} {bk tb fd : Nat}
    (hfuel : 1 ≤ fuel) (hlt : expected < p) :
    unlock_loop t init L period expected ib fuel p u ex bk tb fd
      = (0, some (p, u, fd)) := by
  obtain ⟨f, rfl⟩ : ∃ f, fuel = f + 1 := ⟨fuel - 1, by omega⟩
  simp only [unlock_loop]
  rw [if_neg (by omega)]

/-- A non-guard call whose expected round is strictly before the pending
round is a complete no-op. -/
theorem try_unlock_skip {t : Int} {s : VestingState}
    (hinit : s.init_timestamp ≠ 0) (hgt : s.init_timestamp < t)
    (hL : 1 ≤ ticks_in_round_of s) (hP : 1 ≤ period_of s)
    (hbal : s.balance < U256_LIMIT)
    (hskip : (wrap64 (t - s.init_timestamp)).tdiv (ticks_in_round_of s)
      < s.pending_round) :
    try_unlock t s = some (s, 0) := by
  unfold try_unlock try_unlock_aux
  rw [if_neg (by omega)]
  simp only
  rw [if_neg (by omega : ¬ ticks_in_round_of s = 0),
    if_neg (by omega : ¬ period_of s = 0),
    if_neg (by omega : ¬ (period_of s < 0 ∨ ticks_in_round_of s < 0)),
    loop_skip (by omega) hskip]
  dsimp only
  rw [if_pos (by omega : s.balance + 0 < U256_LIMIT)]
  simp

/-! ### Claim theorems -/

/-- C2 — Guard no-op: if `timestamp ≤ init_timestamp` or
`init_timestamp == 0`, `try_unlock` returns amount `0` and leaves all four
storage slots (`init_timestamp`, `pending_round`, `unlocked_ticks`, the
fraction slot) and the beneficiary balance unchanged (the result state is
the input state). -/
theorem try_unlock_guard_noop (t : Int) (s : VestingState)
    (h : t ≤ s.init_timestamp ∨ s.init_timestamp = 0) :
    try_unlock t s = some (s, 0) := try_unlock_guard h

theorem try_unlock_guard_noop_witness :
    ((50:Int) ≤ (1604188800:Int) ∨ (1604188800:Int) = 0) ∧
      try_unlock 50 ⟨1604188800, 0, 0, 0, 0, 0⟩
        = some (⟨1604188800, 0, 0, 0, 0, 0⟩, 0) :=
  ⟨Or.inl (by norm_num),
    try_unlock_guard_noop 50 ⟨1604188800, 0, 0, 0, 0, 0⟩ (Or.inl (by norm_num))⟩

/-- C10 — Division-by-zero panic on oversized speed-up fractions: if the
stored `fraction_period` exceeds `PERIOD = 20` (derived `period = 0`) or
the stored `fraction_round` exceeds `TICKS_IN_ROUND = 2_592_000` (derived
`ticks_in_round = 0`), every call with `timestamp > init_timestamp > 0`
panics on a division by zero (modelled as `none`): with
`ticks_in_round = 0` the `expected_round` division panics, with
`period = 0` the `initial_bucket` division panics, so absence of panic in
the bucket divisions requires both derived values to be at least 1. -/
theorem try_unlock_oversized_fraction_div_zero {t : Int} {s : VestingState}
    (h0 : 0 < s.init_timestamp) (ht : s.init_timestamp < t)
    (hfr : PERIOD < s.fraction_p ∨ TICKS_IN_ROUND < s.fraction_r) :
    try_unlock t s = none := by
  unfold try_unlock try_unlock_aux
  rw [if_neg (by omega)]
  simp only
  by_cases hL : ticks_in_round_of s = 0
  · rw [if_pos hL]
  · rw [if_neg hL]
    have hper0 : period_of s = 0 := by
      rcases hfr with hfp | hfr2
      · unfold period_of
        rw [if_pos (by norm_num [PERIOD] at hfp ⊢; omega)]
        exact Int.tdiv_eq_zero_of_lt (by norm_num [PERIOD]) hfp
      · exfalso
        apply hL
        unfold ticks_in_round_of
        rw [if_pos (by norm_num [TICKS_IN_ROUND] at hfr2 ⊢; omega)]
        exact Int.tdiv_eq_zero_of_lt (by norm_num [TICKS_IN_ROUND]) hfr2
    rw [if_pos hper0]

theorem try_unlock_oversized_fraction_div_zero_witness :
    ((0:Int) < 100 ∧ (100:Int) < 200 ∧
      (PERIOD < (0:Int) ∨ TICKS_IN_ROUND < (3000000:Int))) ∧
    try_unlock 200 ⟨100, 0, 0, 3000000, 0, 0⟩ = none :=
  ⟨⟨by norm_num, by norm_num, Or.inr (by norm_num [TICKS_IN_ROUND])⟩,
    try_unlock_oversized_fraction_div_zero (by norm_num) (by norm_num)
      (Or.inr (by norm_num [TICKS_IN_ROUND]))⟩

/-- C7 — Frame: every call of `try_unlock` that passes the initial guard
and returns writes only `pending_round` (slot 1) and `unlocked_ticks`
(slot 2) and credits the beneficiary balance by exactly the returned
amount; `init_timestamp` (slot 0) and the fraction slot (slot 3) are never
written. -/
theorem try_unlock_frame {t : Int} {s s' : VestingState} {f : Nat}
    (hinit : s.init_timestamp ≠ 0) (hgt : s.init_timestamp < t)
    (h : try_unlock t s = some (s', f)) :
    s'.init_timestamp = s.init_timestamp ∧ s'.fraction_r = s.fraction_r ∧
      s'.fraction_p = s.fraction_p ∧ s'.balance = s.balance + f := by
  have hpair : try_unlock_aux t s = ((try_unlock_aux t s).1, some (s', f)) := by
    unfold try_unlock at h
    rw [← h]
  obtain ⟨p, u, -, -, -, hs', -⟩ := try_unlock_aux_some hpair (by omega)
  rw [hs']
  exact ⟨rfl, rfl, rfl, rfl⟩

theorem try_unlock_frame_witness :
    ((1604188800:Int) ≠ 0 ∧ (1604188800:Int) < 1604188803 ∧
      try_unlock 1604188803 ⟨1604188800, 0, 0, 0, 0, 7⟩
        = some (⟨1604188800, 0, 3, 0, 0, 7 + 607638888888888888⟩,
            607638888888888888)) ∧
    (1604188800:Int) = 1604188800 ∧ (0:Int) = 0 ∧ (0:Int) = 0 ∧
      7 + 607638888888888888 = 7 + 607638888888888888 := by
  have hcall : try_unlock 1604188803 ⟨1604188800, 0, 0, 0, 0, 7⟩
      = some (⟨1604188800, 0, 3, 0, 0, 7 + 607638888888888888⟩,
          607638888888888888) := by decide
  have hfr := try_unlock_frame (by norm_num) (by norm_num) hcall
  exact ⟨⟨by norm_num, by norm_num, hcall⟩, hfr.1, hfr.2.1, hfr.2.2.1, hfr.2.2.2⟩

/-- C4 — Round conservation: `pending_round` never decreases.  For every
persisted state and every timestamp, if the call returns, the persisted
`pending_round` is at least the `pending_round` read at the start. -/
theorem try_unlock_round_conservation {t : Int} {s s' : VestingState}
    {f : Nat} (hWF : WF s) (ht : isI64 t)
    (h : try_unlock t s = some (s', f)) :
    s.pending_round ≤ s'.pending_round := by
  by_cases hg : t ≤ s.init_timestamp ∨ s.init_timestamp = 0
  · rw [try_unlock_guard hg] at h
    simp only [Option.some.injEq, Prod.mk.injEq] at h
    rw [← h.1]
  · have hpair : try_unlock_aux t s = ((try_unlock_aux t s).1, some (s', f)) := by
      unfold try_unlock at h
      rw [← h]
    obtain ⟨p, u, hloop, hL1, hper, hs', -⟩ := try_unlock_aux_some hpair hg
    have hmono := loop_mono t s.init_timestamp (ticks_in_round_of s)
      (period_of s)
      ((wrap64 (t - s.init_timestamp)).tdiv (ticks_in_round_of s))
      (TOTAL_AMOUNT / (FACTOR * (period_of s).toNat)) _
      s.pending_round s.unlocked_ticks 0 _ _ 0 _ p u f hWF.2.1
      (tdiv_isI64 (isI64_wrap64 _) hL1) hloop
    rw [hs']
    exact hmono

theorem try_unlock_round_conservation_witness :
    (WF ⟨1604188800, 0, 0, 0, 0, 0⟩ ∧ isI64 1630108800 ∧
      try_unlock 1630108800 ⟨1604188800, 0, 0, 0, 0, 0⟩
        = some (⟨1604188800, 10, 0, 0, 0, 5250000000000000000000000⟩,
            5250000000000000000000000)) ∧
    (0:Int) ≤ 10 := by
  have hcall : try_unlock 1630108800 ⟨1604188800, 0, 0, 0, 0, 0⟩
      = some (⟨1604188800, 10, 0, 0, 0, 5250000000000000000000000⟩,
          5250000000000000000000000) := by decide
  have hm := try_unlock_round_conservation (by decide) (by decide) hcall
  exact ⟨⟨by decide, by decide, hcall⟩, hm⟩

/-- C5 — Halving-boundary call: with the default constants and a fresh
state (`pending_round = 0`, `unlocked_ticks = 0`, `init_timestamp = T0 > 0`,
no speed-up fractions), a single call at `T0 + 20*2_592_000 + 1` leaves
`pending_round = 20` and `unlocked_ticks = 1` and returns twenty full
rounds at the original bucket `TOTAL_AMOUNT / (FACTOR * 20)` plus one tick
at the halved bucket, `(initial_bucket / FACTOR) / 2_592_000`. -/
theorem try_unlock_halving_boundary {T0 : Int} (h0 : 0 < T0)
    (hmax : T0 + 20 * 2592000 + 1 < 2 ^ 63) :
    try_unlock (T0 + 20 * 2592000 + 1) ⟨T0, 0, 0, 0, 0, 0⟩
      = some (⟨T0, 20, 1, 0, 0,
          20 * (TOTAL_AMOUNT / (FACTOR * 20))
            + TOTAL_AMOUNT / (FACTOR * 20) / FACTOR / 2592000⟩,
        20 * (TOTAL_AMOUNT / (FACTOR * 20))
          + TOTAL_AMOUNT / (FACTOR * 20) / FACTOR / 2592000) := by
  have hLv : ticks_in_round_of ⟨T0, 0, 0, 0, 0, 0⟩ = 2592000 := by
    norm_num [ticks_in_round_of, TICKS_IN_ROUND]
  have hPv : period_of ⟨T0, 0, 0, 0, 0, 0⟩ = 20 := by
    norm_num [period_of, PERIOD]
  obtain ⟨F, hEq, hSum⟩ := @try_unlock_aligned ⟨T0, 0, 0, 0, 0, 0⟩
    (T0 + 20 * 2592000 + 1) 0
    ⟨by omega, hmax⟩ h0 (by rw [hLv]; norm_num) (by rw [hPv]; norm_num)
    (Int.zero_tdiv _).symm (Int.zero_tmod _).symm (le_refl 0)
    (by show (0:Int) ≤ T0 + 20 * 2592000 + 1 - T0; omega)
    (by show T0 < T0 + 20 * 2592000 + 1; omega)
    (by
      rw [hLv, hPv]
      show ((T0 + 20 * 2592000 + 1 - T0).tdiv 2592000).tdiv 20 ≤ 255
      have hdt : T0 + 20 * 2592000 + 1 - T0 = 51840001 := by ring
      rw [hdt]
      decide)
    (by
      rw [hLv, hPv, credited_zero]
      show 0 + credited (TOTAL_AMOUNT / (FACTOR * (20:Int).toNat)) 2592000 20
          (T0 + 20 * 2592000 + 1 - T0) < U256_LIMIT + 0
      have hdt : T0 + 20 * 2592000 + 1 - T0 = 51840001 := by ring
      rw [hdt]
      decide)
  have hdt : T0 + 20 * 2592000 + 1 - (⟨T0, 0, 0, 0, 0, 0⟩ :
      VestingState).init_timestamp = 51840001 := by
    show T0 + 20 * 2592000 + 1 - T0 = 51840001
    ring
  rw [hLv, hPv, hdt, credited_zero] at hSum
  rw [hLv, hdt] at hEq
  have hFv : F = 20 * (TOTAL_AMOUNT / (FACTOR * 20))
      + TOTAL_AMOUNT / (FACTOR * 20) / FACTOR / 2592000 := by
    have hcv : credited (TOTAL_AMOUNT / (FACTOR * (20:Int).toNat)) 2592000
        20 51840001
        = 20 * (TOTAL_AMOUNT / (FACTOR * 20))
          + TOTAL_AMOUNT / (FACTOR * 20) / FACTOR / 2592000 := by decide
    omega
  have htd : (51840001:Int).tdiv 2592000 = 20 := by decide
  have htm : (51840001:Int).tmod 2592000 = 1 := by decide
  rw [hEq, hFv, htd, htm]
  simp

theorem try_unlock_halving_boundary_witness :
    ((0:Int) < 1604188800 ∧
      (1604188800:Int) + 20 * 2592000 + 1 < 2 ^ 63) ∧
    try_unlock (1604188800 + 20 * 2592000 + 1) ⟨1604188800, 0, 0, 0, 0, 0⟩
      = some (⟨1604188800, 20, 1, 0, 0,
          20 * (TOTAL_AMOUNT / (FACTOR * 20))
            + TOTAL_AMOUNT / (FACTOR * 20) / FACTOR / 2592000⟩,
        20 * (TOTAL_AMOUNT / (FACTOR * 20))
          + TOTAL_AMOUNT / (FACTOR * 20) / FACTOR / 2592000) :=
  ⟨⟨by norm_num, by norm_num⟩,
    try_unlock_halving_boundary (by norm_num) (by norm_num)⟩

/-- C8 — Out-of-order calls, corrected.  The original claim fails: a later
call with `init_timestamp < t2 < t1` that lands in the round already
partially credited makes the internal `ticks` computation negative and the
call panics in `U256::from` (see the counterexample).  Amended claim: such
an out-of-order call is a no-op returning `0` with `pending_round` and
`unlocked_ticks` unchanged provided `t2`'s expected round is strictly
before the persisted `pending_round`. -/
theorem try_unlock_out_of_order {t1 t2 : Int} {s0 s1 : VestingState} {f1 : Nat}
    (hinit : s0.init_timestamp ≠ 0) (hgt1 : s0.init_timestamp < t1)
    (hgt2 : s0.init_timestamp < t2) (hlt : t2 < t1)
    (h1 : try_unlock t1 s0 = some (s1, f1))
    (hskip : (wrap64 (t2 - s0.init_timestamp)).tdiv (ticks_in_round_of s0)
      < s1.pending_round) :
    try_unlock t2 s1 = some (s1, 0) := by
  have hpair : try_unlock_aux t1 s0
      = ((try_unlock_aux t1 s0).1, some (s1, f1)) := by
    unfold try_unlock at h1
    rw [← h1]
  obtain ⟨p, u, hloop, hL1, hper, hs1, hbal⟩ :=
    try_unlock_aux_some hpair (by omega)
  subst hs1
  exact try_unlock_skip hinit hgt2 hL1 hper hbal hskip

/-- C8 counterexample: the claim as stated is false.  From the fresh state
with `init_timestamp = 100`, a call at `t1 = 110` succeeds and credits ten
ticks; the out-of-order call at `t2 = 105` (with `100 < 105 < 110`) then
computes `ticks = 5 - 10 = -5 < 0` and panics in `U256::from` instead of
being a no-op returning 0. -/
theorem try_unlock_out_of_order_cex :
    try_unlock 110 ⟨100, 0, 0, 0, 0, 0⟩
      = some (⟨100, 0, 10, 0, 0, 2025462962962962960⟩, 2025462962962962960) ∧
    try_unlock 105 ⟨100, 0, 10, 0, 0, 2025462962962962960⟩ = none ∧
    (100:Int) < 105 ∧ (105:Int) < 110 :=
  ⟨by decide, by decide, by norm_num, by norm_num⟩

theorem try_unlock_out_of_order_witness :
    ((100:Int) ≠ 0 ∧ (100:Int) < 5284000 ∧ (100:Int) < 150 ∧
      (150:Int) < 5284000 ∧
      try_unlock 5284000 ⟨100, 0, 0, 0, 0, 0⟩
        = some (⟨100, 2, 99900, 0, 0, 1070234374999999999970400⟩,
            1070234374999999999970400) ∧
      (wrap64 (150 - 100)).tdiv
          (ticks_in_round_of ⟨100, 0, 0, 0, 0, 0⟩) < 2) ∧
    try_unlock 150 ⟨100, 2, 99900, 0, 0, 1070234374999999999970400⟩
      = some (⟨100, 2, 99900, 0, 0, 1070234374999999999970400⟩, 0) := by
  have hcall : try_unlock 5284000 ⟨100, 0, 0, 0, 0, 0⟩
      = some (⟨100, 2, 99900, 0, 0, 1070234374999999999970400⟩,
          1070234374999999999970400) := by decide
  refine ⟨⟨by norm_num, by norm_num, by norm_num, by norm_num, hcall,
    by decide⟩, ?_⟩
  exact try_unlock_out_of_order (by norm_num) (by norm_num) (by norm_num)
    (by norm_num) hcall (by decide)

/-- C9 — Bounded termination, corrected.  With `expected_round` computed as
in the code, the loop runs at most `expected_round - pending_round + 1`
iterations (zero when `expected_round < pending_round`), whether or not
the call panics.  The count is exactly `expected_round - pending_round + 1`
— with the final `pending_round` landing on `expected_round`, each
Condition-1 iteration having advanced it by one — when the call completes
without panic and the stored `pending_round` is non-negative.  The original
claim's unconditional exactness is false: with a negative stored
`pending_round` the i64 subtraction `expected_round - pending_round` can
overflow, making the loop take Condition 2 and stop after one iteration
(see the counterexample). -/
theorem try_unlock_iteration_count {t : Int} {s : VestingState}
    (hWF : WF s) (ht : isI64 t)
    (hinit : s.init_timestamp ≠ 0) (hgt : s.init_timestamp < t)
    (hL : ticks_in_round_of s ≠ 0) :
    ((wrap64 (t - s.init_timestamp)).tdiv (ticks_in_round_of s)
        < s.pending_round → (try_unlock_aux t s).1 = 0) ∧
    (s.pending_round
        ≤ (wrap64 (t - s.init_timestamp)).tdiv (ticks_in_round_of s) →
      (try_unlock_aux t s).1
        ≤ ((wrap64 (t - s.init_timestamp)).tdiv (ticks_in_round_of s)
            - s.pending_round).toNat + 1) ∧
    (∀ s' f, try_unlock t s = some (s', f) → 0 ≤ s.pending_round →
      s.pending_round
        ≤ (wrap64 (t - s.init_timestamp)).tdiv (ticks_in_round_of s) →
      (try_unlock_aux t s).1
        = ((wrap64 (t - s.init_timestamp)).tdiv (ticks_in_round_of s)
            - s.pending_round).toNat + 1
        ∧ s'.pending_round
          = (wrap64 (t - s.init_timestamp)).tdiv (ticks_in_round_of s)) := by
  have hL1 : 1 ≤ ticks_in_round_of s := by
    have := ticks_in_round_of_nonneg s
    omega
  have hexpI : isI64 ((wrap64 (t - s.init_timestamp)).tdiv
    (ticks_in_round_of s)) := tdiv_isI64 (isI64_wrap64 _) hL1
  by_cases hP : period_of s = 0
  · have haux : try_unlock_aux t s = (0, none) := by
      unfold try_unlock_aux
      rw [if_neg (by omega)]
      simp only
      rw [if_neg hL, if_pos hP]
    refine ⟨?_, ?_, ?_⟩
    · intro hsk
      rw [haux]
    · intro hle
      rw [haux]
      exact Nat.zero_le _
    · intro s' f hsf
      exfalso
      unfold try_unlock at hsf
      rw [haux] at hsf
      simp at hsf
  · have hP1 : 1 ≤ period_of s := by
      have := period_of_nonneg s
      omega
    have hcount : (try_unlock_aux t s).1
        = (unlock_loop t s.init_timestamp (ticks_in_round_of s) (period_of s)
            ((wrap64 (t - s.init_timestamp)).tdiv (ticks_in_round_of s))
            (TOTAL_AMOUNT / (FACTOR * (period_of s).toNat))
            (((wrap64 (t - s.init_timestamp)).tdiv (ticks_in_round_of s)
              - s.pending_round).toNat + 1)
            s.pending_round s.unlocked_ticks 0
            (TOTAL_AMOUNT / (FACTOR * (period_of s).toNat))
            (TOTAL_AMOUNT / (FACTOR * (period_of s).toNat)
              / (ticks_in_round_of s).toNat) 0).1 := by
      unfold try_unlock_aux
      rw [if_neg (by omega)]
      simp only
      rw [if_neg hL, if_neg hP, if_neg (by
        have := ticks_in_round_of_nonneg s
        have := period_of_nonneg s
        omega : ¬ (period_of s < 0 ∨ ticks_in_round_of s < 0))]
      rcases hl : unlock_loop t s.init_timestamp (ticks_in_round_of s)
          (period_of s)
          ((wrap64 (t - s.init_timestamp)).tdiv (ticks_in_round_of s))
          (TOTAL_AMOUNT / (FACTOR * (period_of s).toNat))
          (((wrap64 (t - s.init_timestamp)).tdiv (ticks_in_round_of s)
            - s.pending_round).toNat + 1)
          s.pending_round s.unlocked_ticks 0
          (TOTAL_AMOUNT / (FACTOR * (period_of s).toNat))
          (TOTAL_AMOUNT / (FACTOR * (period_of s).toNat)
            / (ticks_in_round_of s).toNat) 0 with ⟨m, r⟩
      rcases r with _ | ⟨p1, u1, fd⟩
      · rfl
      · dsimp only
        split
        · rfl
        · rfl
    refine ⟨?_, ?_, ?_⟩
    · intro hsk
      rw [hcount, loop_skip (by omega) hsk]
    · intro hle
      rw [hcount]
      exact loop_count_le t s.init_timestamp (ticks_in_round_of s)
        (period_of s)
        ((wrap64 (t - s.init_timestamp)).tdiv (ticks_in_round_of s))
        (TOTAL_AMOUNT / (FACTOR * (period_of s).toNat)) _
        s.pending_round s.unlocked_ticks 0 _ _ 0 hWF.2.1 hexpI
    · intro s' f hsf hp0 hle
      have hpair : try_unlock_aux t s
          = ((try_unlock_aux t s).1, some (s', f)) := by
        unfold try_unlock at hsf
        rw [← hsf]
      obtain ⟨p1, u1, hloop, -, -, hs', -⟩ :=
        try_unlock_aux_some hpair (by omega)
      have hmast := loop_master t s.init_timestamp (ticks_in_round_of s)
        (period_of s)
        ((wrap64 (t - s.init_timestamp)).tdiv (ticks_in_round_of s))
        (TOTAL_AMOUNT / (FACTOR * (period_of s).toNat))
        hL1 (ticks_in_round_of_le s) rfl _
        s.pending_round s.unlocked_ticks 0 _ _ 0 _ p1 u1 f hWF.2.1
        (by obtain ⟨a, b⟩ := hexpI; omega) (le_refl 0) (by norm_num) hloop
      rw [if_pos hle] at hmast
      obtain ⟨hp1e, -, hn, -⟩ := hmast
      constructor
      · exact hn
      · rw [hs', ← hp1e]

theorem try_unlock_iteration_count_witness :
    ((wrap64 (1604188803 - 1604188800)).tdiv
        (ticks_in_round_of ⟨1604188800, 0, 0, 0, 0, 0⟩)
      = 0) ∧
    (try_unlock_aux 1604188803 ⟨1604188800, 0, 0, 0, 0, 0⟩).1 = 1 := by
  have h := @try_unlock_iteration_count 1604188803 ⟨1604188800, 0, 0, 0, 0, 0⟩
    (by decide) (by decide) (by decide) (by decide) (by decide)
  have hcall : try_unlock 1604188803 ⟨1604188800, 0, 0, 0, 0, 0⟩
      = some (⟨1604188800, 0, 3, 0, 0, 607638888888888888⟩,
          607638888888888888) := by decide
  have h2 := (h.2.2 _ _ hcall (by decide) (by decide)).1
  refine ⟨by decide, ?_⟩
  rw [h2]
  decide

/-- C6 — Resumable idempotence, corrected.  The original claim fails for
states whose stored `pending_round` is very negative: the i64 test
`expected_round - pending_round >= 1` wraps, the first call succeeds
through Condition 2 without advancing `pending_round`, and the second
identical call panics (see the counterexample).  Amended claim: for every
state with non-zero `init_timestamp`, non-negative `pending_round` and
`timestamp > init_timestamp`, after a first call returns, a second call
with the same timestamp returns `0` and leaves the state (in particular
`pending_round` and `unlocked_ticks`) unchanged. -/
theorem try_unlock_resumable_idempotence {t : Int} {s s1 : VestingState}
    {f : Nat} (hWF : WF s) (ht : isI64 t)
    (hinit : s.init_timestamp ≠ 0) (hgt : s.init_timestamp < t)
    (hpnn : 0 ≤ s.pending_round)
    (h : try_unlock t s = some (s1, f)) :
    try_unlock t s1 = some (s1, 0) := by
  have hpair : try_unlock_aux t s = ((try_unlock_aux t s).1, some (s1, f)) := by
    unfold try_unlock at h
    rw [← h]
  obtain ⟨p1, u1, hloop, hL1, hper, hs1, hbal⟩ :=
    try_unlock_aux_some hpair (by omega)
  have hexpI : isI64 ((wrap64 (t - s.init_timestamp)).tdiv
    (ticks_in_round_of s)) := tdiv_isI64 (isI64_wrap64 _) hL1
  have hmast := loop_master t s.init_timestamp (ticks_in_round_of s)
    (period_of s)
    ((wrap64 (t - s.init_timestamp)).tdiv (ticks_in_round_of s))
    (TOTAL_AMOUNT / (FACTOR * (period_of s).toNat))
    hL1 (ticks_in_round_of_le s) rfl _
    s.pending_round s.unlocked_ticks 0 _ _ 0 _ p1 u1 f hWF.2.1
    (by obtain ⟨a, b⟩ := hexpI; omega) (le_refl 0) (by norm_num) hloop
  by_cases hen : s.pending_round
      ≤ (wrap64 (t - s.init_timestamp)).tdiv (ticks_in_round_of s)
  · -- the first call advanced to the expected round; the second call
    -- performs a single zero-tick Condition-2 iteration
    rw [if_pos hen] at hmast
    obtain ⟨hp1e, hu1e, -, hE0, hE255, -⟩ := hmast
    subst hs1
    subst hp1e
    subst hu1e
    unfold try_unlock try_unlock_aux
    rw [if_neg (show ¬ (t ≤ s.init_timestamp ∨ s.init_timestamp = 0)
      by omega)]
    simp only
    have hfr : ticks_in_round_of { s with
        pending_round :=
          (wrap64 (t - s.init_timestamp)).tdiv (ticks_in_round_of s),
        unlocked_ticks := (wrap64 (t - s.init_timestamp)).tmod
          (ticks_in_round_of s),
        balance := s.balance + f } = ticks_in_round_of s := rfl
    have hpr : period_of { s with
        pending_round :=
          (wrap64 (t - s.init_timestamp)).tdiv (ticks_in_round_of s),
        unlocked_ticks := (wrap64 (t - s.init_timestamp)).tmod
          (ticks_in_round_of s),
        balance := s.balance + f } = period_of s := rfl
    rw [hfr, hpr,
      if_neg (show ¬ ticks_in_round_of s = 0 by omega),
      if_neg (show ¬ period_of s = 0 by omega),
      if_neg (show ¬ (period_of s < 0 ∨ ticks_in_round_of s < 0) by
        have := ticks_in_round_of_nonneg s
        omega)]
    rw [loop_idem t s.init_timestamp (ticks_in_round_of s) (period_of s)
      ((wrap64 (t - s.init_timestamp)).tdiv (ticks_in_round_of s))
      (TOTAL_AMOUNT / (FACTOR * (period_of s).toNat))
      hL1 (ticks_in_round_of_le s) rfl hE0 hE255 _ (by omega)]
    dsimp only
    rw [if_pos (show s.balance + f + 0 < U256_LIMIT by omega)]
    simp
  · -- the first call was a skip; the second call skips identically
    rw [if_neg hen] at hmast
    obtain ⟨hp1e, hu1e, hf0, -⟩ := hmast
    subst hs1
    subst hp1e
    subst hu1e
    subst hf0
    refine try_unlock_skip ?_ ?_ ?_ ?_ ?_ ?_
    · exact hinit
    · exact hgt
    · exact hL1
    · exact hper
    · show s.balance + 0 < U256_LIMIT
      omega
    · show (wrap64 (t - s.init_timestamp)).tdiv (ticks_in_round_of s)
        < s.pending_round
      omega

/-- C6 counterexample: the claim as stated is false.  From the state with
`init_timestamp = 1`, `pending_round = -19`, `unlocked_ticks = 10` and
`fraction_r = 2_592_000` (derived round length 1), the call at
`t = 2^63 - 10 > init_timestamp` succeeds, but the second call with the
same timestamp on the resulting state panics (`ticks` wraps negative)
instead of returning 0. -/
theorem try_unlock_resumable_idempotence_cex :
    try_unlock (2 ^ 63 - 10) ⟨1, -19, 10, 2592000, 0, 0⟩
      = some (⟨1, -19, 0, 2592000, 0,
          4842270319348757298150000000000000000000000⟩,
        4842270319348757298150000000000000000000000) ∧
    try_unlock (2 ^ 63 - 10) ⟨1, -19, 0, 2592000, 0,
        4842270319348757298150000000000000000000000⟩ = none ∧
    (1:Int) ≠ 0 ∧ (1:Int) < 2 ^ 63 - 10 :=
  ⟨by decide, by decide, by norm_num, by norm_num⟩

theorem try_unlock_resumable_idempotence_witness :
    (WF ⟨1604188800, 0, 0, 0, 0, 0⟩ ∧ isI64 1604188803 ∧
      (1604188800:Int) ≠ 0 ∧ (1604188800:Int) < 1604188803 ∧
      (0:Int) ≤ 0 ∧
      try_unlock 1604188803 ⟨1604188800, 0, 0, 0, 0, 0⟩
        = some (⟨1604188800, 0, 3, 0, 0, 607638888888888888⟩,
            607638888888888888)) ∧
    try_unlock 1604188803 ⟨1604188800, 0, 3, 0, 0, 607638888888888888⟩
      = some (⟨1604188800, 0, 3, 0, 0, 607638888888888888⟩, 0) := by
  have hcall : try_unlock 1604188803 ⟨1604188800, 0, 0, 0, 0, 0⟩
      = some (⟨1604188800, 0, 3, 0, 0, 607638888888888888⟩,
          607638888888888888) := by decide
  refine ⟨⟨by decide, by decide, by norm_num, by norm_num, le_refl 0,
    hcall⟩, ?_⟩
  exact try_unlock_resumable_idempotence (by decide) (by decide)
    (by norm_num) (by norm_num) (le_refl 0) hcall

/-- C9 counterexample: from the state with `pending_round = -19`,
`fraction_r = 2_592_000` (derived round length 1) and
`init_timestamp = 1`, the call at `t = 2^63 - 10` passes the guard,
completes without panic (it returns `some`), and `expected_round =
2^63 - 11 ≥ pending_round`, yet the loop terminates after exactly 1
iteration while `expected_round - pending_round + 1 = 2^63 + 9`: the i64
subtraction wrapped and the loop took Condition 2 immediately. -/
theorem try_unlock_iteration_count_cex :
    (try_unlock (2 ^ 63 - 10) ⟨1, -19, 10, 2592000, 0, 0⟩).isSome = true ∧
    (try_unlock_aux (2 ^ 63 - 10) ⟨1, -19, 10, 2592000, 0, 0⟩).1 = 1 ∧
    (1:Int) < 2 ^ 63 - 10 ∧
    ((wrap64 ((2 ^ 63 - 10) - 1)).tdiv
        (ticks_in_round_of ⟨1, -19, 10, 2592000, 0, 0⟩) - (-19)).toNat + 1
      = 9223372036854775817 :=
  ⟨by decide, by decide, by norm_num, by decide⟩


/-- Every `Reachable` state satisfies the engine invariant `Inv`. -/
theorem reachable_inv {s : VestingState} (hr : Reachable s) : Inv s := by
  induction hr with
  | genesis s hWF hne hp hu => exact ⟨hWF, by omega, by omega, Or.inl hu⟩
  | step s s' t f hrs ht h ih =>
    obtain ⟨hWF, hpnn, hunn, hualt⟩ := ih
    by_cases hg : t ≤ s.init_timestamp ∨ s.init_timestamp = 0
    · rw [try_unlock_guard hg] at h
      simp only [Option.some.injEq, Prod.mk.injEq] at h
      obtain ⟨hs, -⟩ := h
      exact hs ▸ ⟨hWF, hpnn, hunn, hualt⟩
    · have hpair : try_unlock_aux t s
          = ((try_unlock_aux t s).1, some (s', f)) := by
        unfold try_unlock at h
        rw [← h]
      obtain ⟨p1, u1, hloop, hL1, hper, hs', hbal⟩ :=
        try_unlock_aux_some hpair hg
      have hexpI : isI64 ((wrap64 (t - s.init_timestamp)).tdiv
        (ticks_in_round_of s)) := tdiv_isI64 (isI64_wrap64 _) hL1
      have hLmax := ticks_in_round_of_le s
      have hTV : TICKS_IN_ROUND = 2592000 := by norm_num [TICKS_IN_ROUND]
      have hmast := loop_master t s.init_timestamp (ticks_in_round_of s)
        (period_of s)
        ((wrap64 (t - s.init_timestamp)).tdiv (ticks_in_round_of s))
        (TOTAL_AMOUNT / (FACTOR * (period_of s).toNat))
        hL1 hLmax rfl _
        s.pending_round s.unlocked_ticks 0 _ _ 0 _ p1 u1 f hWF.2.1
        (by obtain ⟨a, b⟩ := hexpI; omega) (le_refl 0) (by norm_num) hloop
      by_cases hen : s.pending_round
          ≤ (wrap64 (t - s.init_timestamp)).tdiv (ticks_in_round_of s)
      · rw [if_pos hen] at hmast
        obtain ⟨hp1e, hu1e, -, -, -, hDnn⟩ := hmast
        have huL : s.unlocked_ticks < ticks_in_round_of s := by
          rcases hualt with h0 | hlt
          · omega
          · exact hlt
        have hD : 0 ≤ wrap64 (t - s.init_timestamp) := hDnn hpnn hunn huL
        have hu1nn : 0 ≤ u1 := by
          rw [hu1e]; exact Int.tmod_nonneg _ hD
        have hu1lt : u1 < ticks_in_round_of s := by
          rw [hu1e]; exact Int.tmod_lt_of_pos _ (by omega)
        subst hs'
        refine ⟨⟨hWF.1, ?_, ?_, hWF.2.2.2.1, hWF.2.2.2.2.1, hbal⟩,
          ?_, hu1nn, Or.inr ?_⟩
        · show isI64 p1
          rw [hp1e]; exact hexpI
        · show isI64 u1
          show -(2 ^ 63) ≤ u1 ∧ u1 < 2 ^ 63
          exact ⟨by omega, by omega⟩
        · show 0 ≤ p1
          omega
        · show u1 < ticks_in_round_of s
          exact hu1lt
      · rw [if_neg hen] at hmast
        obtain ⟨hp1e, hu1e, -, -⟩ := hmast
        subst hs'
        subst hp1e
        subst hu1e
        refine ⟨⟨hWF.1, hWF.2.1, hWF.2.2.1, hWF.2.2.2.1, hWF.2.2.2.2.1,
          hbal⟩, hpnn, hunn, ?_⟩
        rcases hualt with h0 | hlt
        · exact Or.inl h0
        · exact Or.inr hlt

/-- C3 — Tick conservation, amended: after any successful `try_unlock`
call from a reachable prior state, the persisted `unlocked_ticks`
satisfies `0 ≤ unlocked_ticks < ticks_in_round` *provided the derived
round length is positive* (`1 ≤ ticks_in_round_of s'`).  The original
claim omits the proviso: a speed-up fraction larger than
`TICKS_IN_ROUND` makes the derived round length zero, and a guard call
(`timestamp ≤ init_timestamp`) on such a genesis state succeeds while
`unlocked_ticks < ticks_in_round` fails (`0 < 0`); see the
counterexample. -/
theorem try_unlock_tick_conservation {t : Int} {s s' : VestingState}
    {f : Nat} (hr : Reachable s) (ht : isI64 t)
    (h : try_unlock t s = some (s', f))
    (hL : 1 ≤ ticks_in_round_of s') :
    0 ≤ s'.unlocked_ticks ∧ s'.unlocked_ticks < ticks_in_round_of s' := by
  obtain ⟨-, -, hu0, hualt⟩ := reachable_inv (Reachable.step s s' t f hr ht h)
  rcases hualt with h0 | hlt
  · exact ⟨hu0, by omega⟩
  · exact ⟨hu0, hlt⟩

/-- C3 counterexample to the unamended claim: the genesis state with
`fraction_r = 3_000_000 > TICKS_IN_ROUND` has derived round length
`2_592_000 / 3_000_000 = 0`; the guarded call at `timestamp = 50 ≤
init_timestamp = 100` succeeds (returns `some`), yet
`unlocked_ticks < ticks_in_round` fails on the resulting state. -/
theorem try_unlock_tick_conservation_cex :
    Reachable ⟨100, 0, 0, 3000000, 0, 0⟩ ∧
    try_unlock 50 ⟨100, 0, 0, 3000000, 0, 0⟩
      = some (⟨100, 0, 0, 3000000, 0, 0⟩, 0) ∧
    ¬ ((⟨100, 0, 0, 3000000, 0, 0⟩ : VestingState).unlocked_ticks
        < ticks_in_round_of ⟨100, 0, 0, 3000000, 0, 0⟩) :=
  ⟨Reachable.genesis _ (by decide) (by norm_num) rfl rfl, by decide,
    by decide⟩

/-- C3 witness: a genesis call three ticks after start leaves
`unlocked_ticks = 3` inside the round. -/
theorem try_unlock_tick_conservation_witness :
    (try_unlock 1604188803 ⟨1604188800, 0, 0, 0, 0, 0⟩
        = some (⟨1604188800, 0, 3, 0, 0, 607638888888888888⟩,
            607638888888888888) ∧
      (1:Int) ≤ ticks_in_round_of
        ⟨1604188800, 0, 3, 0, 0, 607638888888888888⟩) ∧
    (0 ≤ (⟨1604188800, 0, 3, 0, 0, 607638888888888888⟩ :
        VestingState).unlocked_ticks ∧
      (⟨1604188800, 0, 3, 0, 0, 607638888888888888⟩ :
        VestingState).unlocked_ticks
        < ticks_in_round_of
            ⟨1604188800, 0, 3, 0, 0, 607638888888888888⟩) := by
  have hcall : try_unlock 1604188803 ⟨1604188800, 0, 0, 0, 0, 0⟩
      = some (⟨1604188800, 0, 3, 0, 0, 607638888888888888⟩,
          607638888888888888) := by decide
  exact ⟨⟨hcall, by decide⟩,
    try_unlock_tick_conservation
      (Reachable.genesis _ (by decide) (by norm_num) rfl rfl)
      (by decide) hcall (by decide)⟩


/-- Every member of a strictly increasing list is at most its last
element. -/
theorem chain_mem_le_getLastD (d : Int) :
    ∀ l : List Int, List.Chain' (· < ·) l → ∀ x ∈ l, x ≤ l.getLastD d := by
  intro l
  induction l with
  | nil => intro _ x hx; simp at hx
  | cons a l ih =>
    intro hch x hx
    rcases l with _ | ⟨b, l'⟩
    · simp at hx
      simp [hx]
    · obtain ⟨hab, hch2⟩ := List.chain'_cons.mp hch
      have he : (b :: l').getLastD a = (b :: l').getLastD d := by
        rw [List.getLastD_cons, List.getLastD_cons]
      rw [List.getLastD_cons, he]
      rcases List.mem_cons.mp hx with hxa | hxm
      · have hb : b ≤ (b :: l').getLastD d :=
          ih hch2 b (List.mem_cons_self b l')
        omega
      · exact ih hch2 x hxm

/-- In a strictly increasing chain `a :: l`, the head is below every
member of the tail. -/
theorem chain_head_lt_mem :
    ∀ (a : Int) (l : List Int), List.Chain' (· < ·) (a :: l) →
      ∀ x ∈ l, a < x := by
  intro a l
  induction l generalizing a with
  | nil => intro _ x hx; simp at hx
  | cons b l' ih =>
    intro hch x hx
    obtain ⟨hab, hch2⟩ := List.chain'_cons.mp hch
    rcases List.mem_cons.mp hx with hxb | hxm
    · omega
    · have := ih b hch2 x hxm
      omega

/-- The last element of a non-empty list is a member. -/
theorem getLastD_mem :
    ∀ (l : List Int) (d : Int), l ≠ [] → l.getLastD d ∈ l := by
  intro l
  induction l with
  | nil => intro d h; exact absurd rfl h
  | cons a l ih =>
    intro d _
    rcases l with _ | ⟨b, l'⟩
    · simp
    · rw [List.getLastD_cons]
      exact List.mem_cons_of_mem _ (ih a (by simp))

/-- `getLastD` of a non-empty list does not depend on the default. -/
theorem getLastD_irrel :
    ∀ (l : List Int) (d1 d2 : Int), l ≠ [] →
      l.getLastD d1 = l.getLastD d2 := by
  intro l d1 d2 h
  rcases l with _ | ⟨a, l'⟩
  · exact absurd rfl h
  · rw [List.getLastD_cons, List.getLastD_cons]


/-- Threading `try_unlock` through a strictly increasing list of
timestamps from an aligned state (counters equal to the division data of
an elapsed-tick count `d0`) credits exactly the schedule difference and
lands on the aligned state of the last timestamp. -/
theorem run_calls_aligned {tmax : Int} (htmax : isI64 tmax) :
    ∀ (ts : List Int) (s : VestingState) (d0 : Int),
      0 < s.init_timestamp →
      1 ≤ ticks_in_round_of s → 1 ≤ period_of s →
      s.pending_round = d0.tdiv (ticks_in_round_of s) →
      s.unlocked_ticks = d0.tmod (ticks_in_round_of s) →
      0 ≤ d0 →
      List.Chain' (· < ·) ((s.init_timestamp + d0) :: ts) →
      (∀ x ∈ ts, x ≤ tmax) →
      ((tmax - s.init_timestamp).tdiv (ticks_in_round_of s)).tdiv
          (period_of s) ≤ 255 →
      s.init_timestamp + d0 ≤ tmax →
      s.balance + credited (TOTAL_AMOUNT / (FACTOR * (period_of s).toNat))
          (ticks_in_round_of s) (period_of s) (tmax - s.init_timestamp)
        < U256_LIMIT
          + credited (TOTAL_AMOUNT / (FACTOR * (period_of s).toNat))
              (ticks_in_round_of s) (period_of s) d0 →
      ∃ F, run_calls ts s = some
          ({ s with
              pending_round := (ts.getLastD (s.init_timestamp + d0)
                - s.init_timestamp).tdiv (ticks_in_round_of s),
              unlocked_ticks := (ts.getLastD (s.init_timestamp + d0)
                - s.init_timestamp).tmod (ticks_in_round_of s),
              balance := s.balance + F }, F)
        ∧ F + credited (TOTAL_AMOUNT / (FACTOR * (period_of s).toNat))
              (ticks_in_round_of s) (period_of s) d0
          = credited (TOTAL_AMOUNT / (FACTOR * (period_of s).toNat))
              (ticks_in_round_of s) (period_of s)
              (ts.getLastD (s.init_timestamp + d0) - s.init_timestamp) := by
  intro ts
  induction ts with
  | nil =>
    intro s d0 h0 hL1 hper hp hu hd00 hch hmem hE tle hbal
    have hd : s.init_timestamp + d0 - s.init_timestamp = d0 := by ring
    refine ⟨0, ?_, ?_⟩
    · simp only [run_calls, List.getLastD_nil]
      rw [hd, ← hp, ← hu]
      obtain ⟨i, p, u, fr, fp, b⟩ := s
      norm_num
    · simp only [List.getLastD_nil]
      rw [hd]
      omega
  | cons t ts ih =>
    intro s d0 h0 hL1 hper hp hu hd00 hch hmem hE tle hbal
    obtain ⟨hlt1, hch2⟩ := List.chain'_cons.mp hch
    have htle : t ≤ tmax := hmem t (List.mem_cons_self t ts)
    have htI : isI64 t := by
      obtain ⟨a, b⟩ := htmax
      constructor <;> omega
    have hgt : s.init_timestamp < t := by omega
    have hE1 : ((t - s.init_timestamp).tdiv (ticks_in_round_of s)).tdiv
        (period_of s) ≤ 255 := by
      have m1 : (t - s.init_timestamp).tdiv (ticks_in_round_of s)
          ≤ (tmax - s.init_timestamp).tdiv (ticks_in_round_of s) :=
        tdiv_le_tdiv (by omega) (by omega) (by omega)
      have m2 : ((t - s.init_timestamp).tdiv (ticks_in_round_of s)).tdiv
            (period_of s)
          ≤ ((tmax - s.init_timestamp).tdiv (ticks_in_round_of s)).tdiv
            (period_of s) :=
        tdiv_le_tdiv (Int.tdiv_nonneg (by omega) (by omega)) m1 (by omega)
      omega
    have hmono := @credited_mono
      (TOTAL_AMOUNT / (FACTOR * (period_of s).toNat))
      (ticks_in_round_of s) (period_of s)
      (t - s.init_timestamp) (tmax - s.init_timestamp)
      (by omega) (by omega) (by omega)
    have hbal1 : s.balance
        + credited (TOTAL_AMOUNT / (FACTOR * (period_of s).toNat))
            (ticks_in_round_of s) (period_of s) (t - s.init_timestamp)
      < U256_LIMIT
        + credited (TOTAL_AMOUNT / (FACTOR * (period_of s).toNat))
            (ticks_in_round_of s) (period_of s) d0 := by omega
    obtain ⟨F1, hcall, hFsum⟩ := try_unlock_aligned htI h0 hL1 hper hp hu
      hd00 (by omega) hgt hE1 hbal1
    have harg : s.init_timestamp + (t - s.init_timestamp) = t := by ring
    have hch2' := hch2
    rw [← harg] at hch2'
    obtain ⟨F2, hrun, hsum⟩ := ih
      { s with
          pending_round := (t - s.init_timestamp).tdiv (ticks_in_round_of s),
          unlocked_ticks := (t - s.init_timestamp).tmod (ticks_in_round_of s),
          balance := s.balance + F1 }
      (t - s.init_timestamp)
      (by exact h0) (by exact hL1) (by exact hper) (by exact rfl)
      (by exact rfl) (by omega) (by exact hch2')
      (by intro x hx; exact hmem x (List.mem_cons_of_mem t hx))
      (by exact hE)
      (by show s.init_timestamp + (t - s.init_timestamp) ≤ tmax; omega)
      (by
        show s.balance + F1
            + credited (TOTAL_AMOUNT / (FACTOR * (period_of s).toNat))
                (ticks_in_round_of s) (period_of s) (tmax - s.init_timestamp)
          < U256_LIMIT
            + credited (TOTAL_AMOUNT / (FACTOR * (period_of s).toNat))
                (ticks_in_round_of s) (period_of s) (t - s.init_timestamp)
        omega)
    dsimp only at hrun hsum
    rw [harg] at hrun hsum
    have hrun' : run_calls ts
        { s with
            pending_round := (t - s.init_timestamp).tdiv (ticks_in_round_of s),
            unlocked_ticks := (t - s.init_timestamp).tmod (ticks_in_round_of s),
            balance := s.balance + F1 }
        = some
          ({ s with
              pending_round := (ts.getLastD t - s.init_timestamp).tdiv
                (ticks_in_round_of s),
              unlocked_ticks := (ts.getLastD t - s.init_timestamp).tmod
                (ticks_in_round_of s),
              balance := s.balance + F1 + F2 }, F2) := hrun
    have hsum' : F2
        + credited (TOTAL_AMOUNT / (FACTOR * (period_of s).toNat))
            (ticks_in_round_of s) (period_of s) (t - s.init_timestamp)
      = credited (TOTAL_AMOUNT / (FACTOR * (period_of s).toNat))
          (ticks_in_round_of s) (period_of s)
          (ts.getLastD t - s.init_timestamp) := hsum
    refine ⟨F1 + F2, ?_, ?_⟩
    · rw [List.getLastD_cons]
      simp only [run_calls, hcall, hrun']
      rw [← Nat.add_assoc]
    · rw [List.getLastD_cons]
      omega


/-- C1 — Call-granularity invariance, amended: the initial state must
have a *positive* `init_timestamp`, not merely a non-zero one.  For every
initial state with `0 < init_timestamp`, zero `pending_round` and zero
`unlocked_ticks`, and every strictly increasing sequence of i64
timestamps all greater than `init_timestamp`, if the single call at the
final timestamp `tn` succeeds, then calling `try_unlock` at each
timestamp in order also succeeds, the amounts returned by the sequence
sum to the single-call amount, and both executions leave identical
`pending_round` and `unlocked_ticks`.  The original claim only assumes
`init_timestamp ≠ 0`: for a negative `init_timestamp` the i64 subtraction
`timestamp - init_timestamp` can wrap, making an early call credit funds
that the single late call does not; see the counterexample. -/
theorem try_unlock_call_granularity {s0 : VestingState} {ts : List Int}
    {tn : Int} {sF : VestingState} {F : Nat}
    (hinit : 0 < s0.init_timestamp)
    (hp0 : s0.pending_round = 0) (hu0 : s0.unlocked_ticks = 0)
    (htn : isI64 tn) (hne : ts ≠ [])
    (hlast : ts.getLastD 0 = tn)
    (hchain : List.Chain' (· < ·) (s0.init_timestamp :: ts))
    (hsingle : try_unlock tn s0 = some (sF, F)) :
    ∃ sS, run_calls ts s0 = some (sS, F) ∧
      sS.pending_round = sF.pending_round ∧
      sS.unlocked_ticks = sF.unlocked_ticks := by
  have htnm : tn ∈ ts := hlast ▸ getLastD_mem ts 0 hne
  have hgtn : s0.init_timestamp < tn := chain_head_lt_mem _ _ hchain tn htnm
  have hpair : try_unlock_aux tn s0
      = ((try_unlock_aux tn s0).1, some (sF, F)) := by
    unfold try_unlock at hsingle
    rw [← hsingle]
  obtain ⟨p1, u1, hloopS, hL1, hper, hsF, hbalS⟩ :=
    try_unlock_aux_some hpair (by omega)
  have hDw : wrap64 (tn - s0.init_timestamp) = tn - s0.init_timestamp := by
    obtain ⟨a, b⟩ := htn
    apply wrap64_eq_self <;> omega
  have hexpI := tdiv_isI64 (isI64_wrap64 (tn - s0.init_timestamp)) hL1
  have hexpnn : 0 ≤ (wrap64 (tn - s0.init_timestamp)).tdiv
      (ticks_in_round_of s0) := Int.tdiv_nonneg (by omega) (by omega)
  have hmast := loop_master tn s0.init_timestamp (ticks_in_round_of s0)
    (period_of s0)
    ((wrap64 (tn - s0.init_timestamp)).tdiv (ticks_in_round_of s0))
    (TOTAL_AMOUNT / (FACTOR * (period_of s0).toNat))
    hL1 (ticks_in_round_of_le s0) rfl _
    s0.pending_round s0.unlocked_ticks 0 _ _ 0 _ p1 u1 F
    (by rw [hp0]; exact ⟨by norm_num, by norm_num⟩)
    (by obtain ⟨a, b⟩ := hexpI; omega) (le_refl 0) (by norm_num) hloopS
  rw [if_pos (show s0.pending_round
    ≤ (wrap64 (tn - s0.init_timestamp)).tdiv (ticks_in_round_of s0)
    by omega)] at hmast
  obtain ⟨hp1e, hu1e, -, hE0, hE255, -⟩ := hmast
  have hcnt : ((wrap64 (tn - s0.init_timestamp)).tdiv (ticks_in_round_of s0)
      - s0.pending_round).toNat + 1 ≤ 2 ^ 63 := by
    obtain ⟨a, b⟩ := hexpI
    omega
  have hible : TOTAL_AMOUNT / (FACTOR * (period_of s0).toNat)
      ≤ TOTAL_AMOUNT := Nat.div_le_self _ _
  have hfd : (0:Nat) + (((wrap64 (tn - s0.init_timestamp)).tdiv
      (ticks_in_round_of s0) - s0.pending_round).toNat + 1)
        * (TOTAL_AMOUNT / (FACTOR * (period_of s0).toNat)) < U256_LIMIT := by
    have h1 : (((wrap64 (tn - s0.init_timestamp)).tdiv (ticks_in_round_of s0)
        - s0.pending_round).toNat + 1)
          * (TOTAL_AMOUNT / (FACTOR * (period_of s0).toNat))
        ≤ 2 ^ 63 * TOTAL_AMOUNT := Nat.mul_le_mul hcnt hible
    have h2 : 2 ^ 63 * TOTAL_AMOUNT < U256_LIMIT := by
      norm_num [TOTAL_AMOUNT, U256_LIMIT]
    omega
  obtain ⟨F', hFeq, hFsum'⟩ := loop_aligned tn s0.init_timestamp
    (ticks_in_round_of s0) (period_of s0)
    ((wrap64 (tn - s0.init_timestamp)).tdiv (ticks_in_round_of s0))
    (TOTAL_AMOUNT / (FACTOR * (period_of s0).toNat))
    hL1 (ticks_in_round_of_le s0) hper (by omega) rfl hE255
    (((wrap64 (tn - s0.init_timestamp)).tdiv (ticks_in_round_of s0)
      - s0.pending_round).toNat + 1)
    0 s0.pending_round s0.unlocked_ticks 0
    (TOTAL_AMOUNT / (FACTOR * (period_of s0).toNat))
    (TOTAL_AMOUNT / (FACTOR * (period_of s0).toNat)
      / (ticks_in_round_of s0).toNat)
    0 (le_refl 0) (by omega)
    (by rw [hp0, Int.zero_tdiv]) (by rw [hu0, Int.zero_tmod])
    (le_refl 0) (by norm_num [FACTOR]) rfl (le_refl _) hfd
  rw [hloopS] at hFeq
  simp only [Prod.mk.injEq, Option.some.injEq] at hFeq
  obtain ⟨-, hp1e', hu1e', hFF⟩ := hFeq
  rw [credited_zero, Nat.zero_add] at hFsum'
  obtain ⟨F2, hrunEq, hF2sum⟩ := run_calls_aligned htn ts s0 0
    hinit hL1 hper (by rw [hp0, Int.zero_tdiv]) (by rw [hu0, Int.zero_tmod])
    (le_refl 0)
    (by rw [show s0.init_timestamp + (0:Int) = s0.init_timestamp from by ring]
        exact hchain)
    (by intro x hx
        have := chain_mem_le_getLastD 0 ts hchain.tail x hx
        rw [hlast] at this
        exact this)
    (by rw [← hDw]; exact hE255)
    (by omega)
    (by rw [credited_zero, ← hDw]
        omega)
  rw [show s0.init_timestamp + (0:Int) = s0.init_timestamp from by ring]
    at hrunEq hF2sum
  rw [getLastD_irrel ts s0.init_timestamp 0 hne, hlast] at hrunEq hF2sum
  rw [credited_zero, ← hDw] at hF2sum
  have hF2F : F2 = F := by omega
  subst hF2F
  refine ⟨_, hrunEq, ?_, ?_⟩
  · subst hsF
    show (tn - s0.init_timestamp).tdiv (ticks_in_round_of s0) = p1
    rw [hp1e', hDw]
  · subst hsF
    show (tn - s0.init_timestamp).tmod (ticks_in_round_of s0) = u1
    rw [hu1e', hDw]


/-- C1 counterexample to the unamended claim: the initial state
`⟨-9223372036854775806, 0, 0, 0, 0, 0⟩` has non-zero (but negative)
`init_timestamp`, and `[-9223372036854775805, 5]` is a strictly
increasing timestamp sequence above it.  In the first call of the
sequence the i64 difference `timestamp - init_timestamp` is `1`, so one
tick (202546296296296296 wei) is credited; in the single call at the
final timestamp `5` the difference `5 - init_timestamp` overflows i64
and wraps to a negative value, so nothing is credited: the summed
amounts (and the final `unlocked_ticks`) differ. -/
theorem try_unlock_call_granularity_cex :
    (⟨-9223372036854775806, 0, 0, 0, 0, 0⟩ :
        VestingState).init_timestamp ≠ 0 ∧
    List.Chain' (· < ·)
      ((⟨-9223372036854775806, 0, 0, 0, 0, 0⟩ :
          VestingState).init_timestamp
        :: [-9223372036854775805, 5]) ∧
    run_calls [-9223372036854775805, 5]
        ⟨-9223372036854775806, 0, 0, 0, 0, 0⟩
      = some (⟨-9223372036854775806, 0, 1, 0, 0, 202546296296296296⟩,
          202546296296296296) ∧
    try_unlock 5 ⟨-9223372036854775806, 0, 0, 0, 0, 0⟩
      = some (⟨-9223372036854775806, 0, 0, 0, 0, 0⟩, 0) ∧
    (202546296296296296 : Nat) ≠ 0 :=
  ⟨by norm_num, by simp [List.chain'_cons], by decide, by decide, by norm_num⟩

/-- C1 witness: from a genesis state started at `1604188800`, calling at
`1604188803` and then `1604188806` returns the same total
(six tick buckets) and the same final counters as a single call at
`1604188806`. -/
theorem try_unlock_call_granularity_witness :
    ((0:Int) < 1604188800 ∧
      ([1604188803, 1604188806] : List Int) ≠ [] ∧
      ([1604188803, 1604188806] : List Int).getLastD 0 = 1604188806 ∧
      List.Chain' (· < ·)
        ((1604188800:Int) :: [1604188803, 1604188806]) ∧
      try_unlock 1604188806 ⟨1604188800, 0, 0, 0, 0, 0⟩
        = some (⟨1604188800, 0, 6, 0, 0, 1215277777777777776⟩,
            1215277777777777776)) ∧
    ∃ sS, run_calls [1604188803, 1604188806] ⟨1604188800, 0, 0, 0, 0, 0⟩
        = some (sS, 1215277777777777776) ∧
      sS.pending_round
        = (⟨1604188800, 0, 6, 0, 0, 1215277777777777776⟩ :
            VestingState).pending_round ∧
      sS.unlocked_ticks
        = (⟨1604188800, 0, 6, 0, 0, 1215277777777777776⟩ :
            VestingState).unlocked_ticks := by
  have hcall : try_unlock 1604188806 ⟨1604188800, 0, 0, 0, 0, 0⟩
      = some (⟨1604188800, 0, 6, 0, 0, 1215277777777777776⟩,
          1215277777777777776) := by decide
  refine ⟨⟨by norm_num, by simp, by decide,
    by simp [List.chain'_cons], hcall⟩, ?_⟩
  exact try_unlock_call_granularity (by norm_num) rfl rfl (by decide)
    (by simp) (by decide) (by simp [List.chain'_cons]) hcall

end FundManager
